import Mathlib

/-!
Verification of the indicator computation and aggregation pipeline of the
population-puzzle-merger repository (src/lib/fileProcessor.ts) against its
natural-language specification.

Modelling conventions.  JS numbers on the data analysed here are modelled as
exact rationals.  A pivoted per-region year cell is modelled by `Cell`:
`absent` stands for a year key that is missing or holds the empty string
(both are falsy in JS), `junk` for a non-empty string on which parseFloat
yields NaN, and `num q` for a numeric string of value `q`.  Year labels are
identified with their index in the ascending sorted year axis (the labels in
a sorted JS Set are distinct); the sentinel year `''` of the source is
rendered as `none`.
-/

namespace PPM

/-- Pivoted cell of one region row for one year of the sorted year axis. -/
inductive Cell where
  | absent : Cell
  | junk : Cell
  | num (q : ℚ) : Cell
deriving DecidableEq, Repr

/-- Candidate value the peak scan reads for a cell.  The source evaluates
parseFloat(row[yearKey] || '0') and skips NaN: a missing/empty cell yields 0,
a non-numeric string is skipped, a numeric string yields its value. -/
def Cell.scanVal : Cell → Option ℚ
  | .absent => some 0
  | .junk => none
  | .num q => some q

/-- Availability test of the source, row[yearKey] && !isNaN(parseFloat(...)):
only a non-empty numeric cell is available, and then with its value. -/
def Cell.avail : Cell → Option ℚ
  | .num q => some q
  | .absent => none
  | .junk => none

/-- Peak scan of the analyzers: fold over the year axis (from year index `i`)
keeping (maxValue, maxYear); the year is recorded at each strict improvement
over the running maximum, which starts at 0. -/
def peakScan (i : Nat) (m : ℚ) (mi : Option Nat) : List Cell → ℚ × Option Nat
  | [] => (m, mi)
  | c :: r =>
    match c.scanVal with
    | some v => if m < v then peakScan (i + 1) v (some i) r else peakScan (i + 1) m mi r
    | none => peakScan (i + 1) m mi r

/-- Indexed available data points (availableYears of the source, from index
`i`, paired with their numeric values). -/
def availPairs (i : Nat) : List Cell → List (Nat × ℚ)
  | [] => []
  | c :: r =>
    match c.avail with
    | some v => (i, v) :: availPairs (i + 1) r
    | none => availPairs (i + 1) r

/-- JS slice(-n): the last at most `n` elements of a list. -/
def lastN (n : Nat) (l : List α) : List α := l.drop (l.length - n)

/-- Consecutive-decline loop of the source over the tail of the last-5-with-
data window: `prev` is the previous value, `cur` the current run of declines,
`best` the longest run seen, `flags` the year indices flagged `_declining`. -/
def consecScan (prev : ℚ) (cur best : Nat) (flags : List Nat) :
    List (Nat × ℚ) → Nat × List Nat
  | [] => (best, flags)
  | (i, v) :: r =>
    if v < prev then consecScan v (cur + 1) (max best (cur + 1)) (flags ++ [i]) r
    else consecScan v 0 best flags r

/-- Longest run of consecutive declines (and declining-year flags) over the
(year index, value) pairs of a window, as the source's loop from index 1. -/
def consecRun : List (Nat × ℚ) → Nat × List Nat
  | [] => (0, [])
  | (_, v) :: r => consecScan v 0 0 [] r

/-- Output of analyzePopulationDecline for one region row.  `isMax` is the
year index flagged `year_Y_isMax` (none when no mark is written), `declineRate`
the numeric rate before toFixed(2) formatting, `decline20` the Decline_20pct
field, `consecutive` the ConsecutiveDecline field, `decliningIdx` the year
indices flagged `year_Y_declining`. -/
structure PopAnalysis where
  isMax : Option Nat
  maxValue : ℚ
  declineRate : ℚ
  decline20 : String
  consecutive : String
  decliningIdx : List Nat
deriving DecidableEq, Repr

/-- The demographic analyzer of the source (analyzePopulationDecline), per
region row, over the full sorted year axis. -/
def analyzePopulationDecline (cells : List Cell) : PopAnalysis :=
  let scan := peakScan 0 0 none cells
  let maxPopulation := scan.1
  let maxYear := scan.2
  let avail := availPairs 0 cells
  let mostRecentPopulation := ((avail.getLast?).map Prod.snd).getD 0
  let declineRate : ℚ :=
    if maxPopulation > 0 ∧ mostRecentPopulation > 0 then
      (mostRecentPopulation - maxPopulation) / maxPopulation * 100
    else 0
  let run := consecRun (lastN 5 avail)
  { isMax := maxYear
    maxValue := maxPopulation
    declineRate := declineRate
    decline20 := if declineRate ≤ -20 then "O" else "X"
    consecutive := if run.1 ≥ 2 then "O" else "X"
    decliningIdx := run.2 }

/-- Output of analyzeBusinessDecline for one region row (fields as in
`PopAnalysis`, for the BusinessDeclineRate / BusinessDeclineOver5% /
BusinessConsecDecline columns). -/
structure BizAnalysis where
  isMax : Option Nat
  maxValue : ℚ
  declineRate : ℚ
  decline5 : String
  consecutive : String
  decliningIdx : List Nat
deriving DecidableEq, Repr

/-- The economic analyzer of the source (analyzeBusinessDecline): identical to
the demographic one except that the peak scan runs over sortedYears.slice(-10)
and the decline rate additionally requires maxYear !== mostRecentYear. -/
def analyzeBusinessDecline (cells : List Cell) : BizAnalysis :=
  let scan := peakScan (cells.length - 10) 0 none (lastN 10 cells)
  let maxValue := scan.1
  let maxYear := scan.2
  let avail := availPairs 0 cells
  let mostRecentYear := (avail.getLast?).map Prod.fst
  let mostRecentValue := ((avail.getLast?).map Prod.snd).getD 0
  let declineRate : ℚ :=
    if maxValue > 0 ∧ mostRecentValue > 0 ∧ maxYear ≠ mostRecentYear then
      (mostRecentValue - maxValue) / maxValue * 100
    else 0
  let run := consecRun (lastN 5 avail)
  { isMax := maxYear
    maxValue := maxValue
    declineRate := declineRate
    decline5 := if declineRate ≤ -5 then "O" else "X"
    consecutive := if run.1 ≥ 2 then "O" else "X"
    decliningIdx := run.2 }

/-- Spec notion for Condition B: the value list contains three consecutive
entries that strictly decrease, i.e. the longest strictly-decreasing adjacent
run has at least 2 decreasing steps. -/
def hasTwoDrops (l : List ℚ) : Prop :=
  ∃ l1 a b c l2, l = l1 ++ a :: b :: c :: l2 ∧ b < a ∧ c < b

/-- Decline rate as the specification words it: (most recent − peak)/peak×100
when both the peak value and the most recent available value are strictly
positive, and exactly 0 otherwise (missing, zero or negative values). -/
def specDeclineRate (cells : List Cell) : ℚ :=
  let vals := (availPairs 0 cells).map Prod.snd
  match vals.maximum, vals.getLast? with
  | some p, some m => if 0 < p ∧ 0 < m then (m - p) / p * 100 else 0
  | _, _ => 0

/-- Peak of the economic claim, as worded: among the region's most recent 10
years with data, the maximum value, paired with the first such year attaining
it. -/
def specBizPeak (cells : List Cell) : Option (Nat × ℚ) :=
  let pts := lastN 10 (availPairs 0 cells)
  match (pts.map Prod.snd).maximum with
  | some p => (pts.find? (fun x => decide (x.2 = p))).map (fun x => (x.1, p))
  | none => none

/-- Peak the economic analyzer actually computes: the same maximum-and-first-
year rule, but over the region's data points within the last 10 entries of the
sorted year axis (with or without data), and only a strictly positive maximum
is recorded. -/
def windowPeak (cells : List Cell) : Option (Nat × ℚ) :=
  let pts := availPairs (cells.length - 10) (lastN 10 cells)
  match (pts.map Prod.snd).maximum with
  | some p =>
    if 0 < p then (pts.find? (fun x => decide (x.2 = p))).map (fun x => (x.1, p)) else none
  | none => none

theorem le_foldl_max (l : List ℚ) (a : ℚ) : a ≤ l.foldl max a := by
  induction l generalizing a with
  | nil => exact le_rfl
  | cons x t ih => exact le_trans (le_max_left a x) (ih (max a x))

theorem foldl_max_mem (l : List ℚ) (a : ℚ) : l.foldl max a = a ∨ l.foldl max a ∈ l := by
  induction l generalizing a with
  | nil => exact Or.inl rfl
  | cons x t ih =>
    rw [List.foldl_cons]
    rcases ih (max a x) with h | h
    · rcases max_choice a x with h1 | h1
      · exact Or.inl (h.trans h1)
      · exact Or.inr (List.mem_cons.mpr (Or.inl (h.trans h1)))
    · exact Or.inr (List.mem_cons.mpr (Or.inr h))

theorem mem_le_foldl_max (l : List ℚ) (a : ℚ) : ∀ x ∈ l, x ≤ l.foldl max a := by
  induction l generalizing a with
  | nil => intro x hx; exact absurd hx (List.not_mem_nil x)
  | cons y t ih =>
    intro x hx
    rw [List.foldl_cons]
    rcases List.mem_cons.mp hx with rfl | hx
    · exact le_trans (le_max_right a x) (le_foldl_max t (max a x))
    · exact ih (max a y) x hx

theorem peakScan_fst (cells : List Cell) :
    ∀ (i : Nat) (m : ℚ) (mi : Option Nat), 0 ≤ m →
      (peakScan i m mi cells).1 = ((availPairs i cells).map Prod.snd).foldl max m := by
  induction cells with
  | nil => intro i m mi _; rfl
  | cons c r ih =>
    intro i m mi hm
    cases c with
    | absent =>
      simp only [peakScan, Cell.scanVal, availPairs, Cell.avail]
      rw [if_neg (not_lt.mpr hm)]
      exact ih (i + 1) m mi hm
    | junk =>
      simp only [peakScan, Cell.scanVal, availPairs, Cell.avail]
      exact ih (i + 1) m mi hm
    | num v =>
      simp only [peakScan, Cell.scanVal, availPairs, Cell.avail, List.map_cons, List.foldl_cons]
      by_cases h : m < v
      · rw [if_pos h, ih (i + 1) v (some i) (le_of_lt (lt_of_le_of_lt hm h)),
          max_eq_right (le_of_lt h)]
      · rw [if_neg h, ih (i + 1) m mi hm, max_eq_left (not_lt.mp h)]

theorem peakScan_snd (cells : List Cell) :
    ∀ (i : Nat) (m : ℚ) (mi : Option Nat), 0 ≤ m →
      (peakScan i m mi cells).2 =
        (if m < ((availPairs i cells).map Prod.snd).foldl max m then
          ((availPairs i cells).find?
            (fun x => decide (x.2 = ((availPairs i cells).map Prod.snd).foldl max m))).map
            Prod.fst
        else mi) := by
  induction cells with
  | nil =>
    intro i m mi _
    simp only [peakScan, availPairs, List.map_nil, List.foldl_nil, lt_self_iff_false, if_false]
  | cons c r ih =>
    intro i m mi hm
    cases c with
    | absent =>
      simp only [peakScan, Cell.scanVal, availPairs, Cell.avail]
      rw [if_neg (not_lt.mpr hm)]
      exact ih (i + 1) m mi hm
    | junk =>
      simp only [peakScan, Cell.scanVal, availPairs, Cell.avail]
      exact ih (i + 1) m mi hm
    | num v =>
      simp only [peakScan, Cell.scanVal, availPairs, Cell.avail, List.map_cons, List.foldl_cons]
      by_cases h : m < v
      · simp only [if_pos h, max_eq_right (le_of_lt h)]
        rw [ih (i + 1) v (some i) (le_of_lt (lt_of_le_of_lt hm h))]
        have hvM : v ≤ ((availPairs (i + 1) r).map Prod.snd).foldl max v := le_foldl_max _ v
        by_cases hvEq : v = ((availPairs (i + 1) r).map Prod.snd).foldl max v
        · rw [if_neg (not_lt.mpr (le_of_eq hvEq.symm)), if_pos (lt_of_lt_of_le h hvM),
            List.find?_cons_of_pos _ (by simpa using hvEq)]
          rfl
        · have hvlt : v < ((availPairs (i + 1) r).map Prod.snd).foldl max v :=
            lt_of_le_of_ne hvM hvEq
          rw [if_pos hvlt, if_pos (lt_trans h hvlt),
            List.find?_cons_of_neg _ (by simpa using hvEq)]
      · simp only [if_neg h, max_eq_left (not_lt.mp h)]
        rw [ih (i + 1) m mi hm]
        by_cases hmM : m < ((availPairs (i + 1) r).map Prod.snd).foldl max m
        · rw [if_pos hmM, if_pos hmM, List.find?_cons_of_neg _ (by
            simp only [decide_eq_true_eq]
            exact ne_of_lt (lt_of_le_of_lt (not_lt.mp h) hmM))]
        · rw [if_neg hmM, if_neg hmM]

/-- Value component of the consecutive-decline loop, flags dropped. -/
def runBest (prev : ℚ) (cur best : Nat) : List ℚ → Nat
  | [] => best
  | v :: r =>
    if v < prev then runBest v (cur + 1) (max best (cur + 1)) r else runBest v 0 best r

/-- Longest decline run starting fresh from a prefix run of length `cur`. -/
def runG (cur : Nat) (prev : ℚ) : List ℚ → Nat
  | [] => 0
  | v :: r => if v < prev then max (cur + 1) (runG (cur + 1) v r) else runG 0 v r

theorem consecScan_fst (pairs : List (Nat × ℚ)) :
    ∀ (prev : ℚ) (cur best : Nat) (flags : List Nat),
      (consecScan prev cur best flags pairs).1 = runBest prev cur best (pairs.map Prod.snd) := by
  induction pairs with
  | nil => intro prev cur best flags; rfl
  | cons p r ih =>
    intro prev cur best flags
    obtain ⟨i, v⟩ := p
    simp only [consecScan, runBest, List.map_cons]
    by_cases h : v < prev
    · rw [if_pos h, if_pos h, ih]
    · rw [if_neg h, if_neg h, ih]

theorem runBest_eq_max (l : List ℚ) :
    ∀ (prev : ℚ) (cur best : Nat), runBest prev cur best l = max best (runG cur prev l) := by
  induction l with
  | nil => intro prev cur best; simp [runBest, runG]
  | cons v r ih =>
    intro prev cur best
    simp only [runBest, runG]
    by_cases h : v < prev
    · rw [if_pos h, if_pos h, ih, Nat.max_assoc]
    · rw [if_neg h, if_neg h, ih]

theorem hasTwoDrops_length {l : List ℚ} (h : hasTwoDrops l) : 3 ≤ l.length := by
  obtain ⟨l1, a, b, c, l2, rfl, _, _⟩ := h
  simp only [List.length_append, List.length_cons]
  omega

theorem hasTwoDrops_cons (a : ℚ) (t : List ℚ) :
    hasTwoDrops (a :: t) ↔
      (∃ b c s, t = b :: c :: s ∧ b < a ∧ c < b) ∨ hasTwoDrops t := by
  constructor
  · rintro ⟨l1, x, y, z, l2, heq, h1, h2⟩
    cases l1 with
    | nil =>
      simp only [List.nil_append, List.cons.injEq] at heq
      obtain ⟨rfl, rfl⟩ := heq
      exact Or.inl ⟨y, z, l2, rfl, h1, h2⟩
    | cons hd tl =>
      simp only [List.cons_append, List.cons.injEq] at heq
      obtain ⟨rfl, rfl⟩ := heq
      exact Or.inr ⟨tl, x, y, z, l2, rfl, h1, h2⟩
  · rintro (⟨b, c, s, rfl, h1, h2⟩ | ⟨l1, x, y, z, l2, heq, h1, h2⟩)
    · exact ⟨[], a, b, c, s, rfl, h1, h2⟩
    · exact ⟨a :: l1, x, y, z, l2, by rw [heq, List.cons_append], h1, h2⟩

theorem runG_ge_two_iff (l : List ℚ) :
    ∀ (prev : ℚ) (cur : Nat),
      2 ≤ runG cur prev l ↔
        hasTwoDrops (prev :: l) ∨ (1 ≤ cur ∧ ∃ v r, l = v :: r ∧ v < prev) := by
  induction l with
  | nil =>
    intro prev cur
    simp only [runG]
    constructor
    · omega
    · rintro (h | ⟨_, v, r, heq, _⟩)
      · exact absurd (hasTwoDrops_length h) (by simp)
      · exact absurd heq (by simp)
  | cons v r ih =>
    intro prev cur
    have aux1 : (∃ b c s, (v :: r : List ℚ) = b :: c :: s ∧ b < prev ∧ c < b) ↔
        (v < prev ∧ ∃ c s, r = c :: s ∧ c < v) := by
      constructor
      · rintro ⟨b, c, s, heq, hb, hc⟩
        simp only [List.cons.injEq] at heq
        obtain ⟨rfl, rfl⟩ := heq
        exact ⟨hb, c, s, rfl, hc⟩
      · rintro ⟨h1, c, s, rfl, hc⟩
        exact ⟨v, c, s, rfl, h1, hc⟩
    have aux2 : (∃ w s, (v :: r : List ℚ) = w :: s ∧ w < prev) ↔ v < prev := by
      constructor
      · rintro ⟨w, s, heq, hw⟩
        simp only [List.cons.injEq] at heq
        obtain ⟨rfl, rfl⟩ := heq
        exact hw
      · intro h1
        exact ⟨v, r, rfl, h1⟩
    simp only [runG]
    by_cases h : v < prev
    · rw [if_pos h, le_max_iff, ih v (cur + 1), hasTwoDrops_cons prev (v :: r), aux1, aux2]
      have e1 : (2 ≤ cur + 1) ↔ (1 ≤ cur) := by omega
      have e2 : (1 ≤ cur + 1) ↔ True := by simp
      rw [e1, e2, true_and]
      constructor
      · rintro (hc | hH | hP)
        · exact Or.inr ⟨hc, h⟩
        · exact Or.inl (Or.inr hH)
        · exact Or.inl (Or.inl ⟨h, hP⟩)
      · rintro ((⟨_, hP⟩ | hH) | ⟨hc, _⟩)
        · exact Or.inr (Or.inr hP)
        · exact Or.inr (Or.inl hH)
        · exact Or.inl hc
    · rw [if_neg h, ih v 0, hasTwoDrops_cons prev (v :: r), aux1, aux2]
      constructor
      · rintro (hH | ⟨h0, _⟩)
        · exact Or.inl (Or.inr hH)
        · exact absurd h0 (by omega)
      · rintro ((⟨hv, _⟩ | hH) | ⟨_, hv⟩)
        · exact absurd hv h
        · exact Or.inl hH
        · exact absurd hv h

/-- Longest-run test of the analyzers: the run counter reaches 2 exactly when
the value window contains three consecutive strictly decreasing entries. -/
theorem consecRun_ge_two_iff (pairs : List (Nat × ℚ)) :
    2 ≤ (consecRun pairs).1 ↔ hasTwoDrops (pairs.map Prod.snd) := by
  cases pairs with
  | nil =>
    simp only [consecRun, List.map_nil]
    constructor
    · omega
    · intro h
      exact absurd (hasTwoDrops_length h) (by simp)
  | cons p r =>
    obtain ⟨i, v⟩ := p
    simp only [consecRun, List.map_cons]
    rw [consecScan_fst, runBest_eq_max, Nat.max_eq_right (Nat.zero_le _), runG_ge_two_iff]
    constructor
    · rintro (hH | ⟨h0, _⟩)
      · exact hH
      · exact absurd h0 (by omega)
    · exact Or.inl

/-- C1: the demographic sustained-decline verdict (ConsecutiveDecline) is 'O'
iff the longest run of strictly-decreasing adjacent values among the region's
last 5 years with data contains at least 2 consecutive decreases (three
consecutive strictly decreasing data points); in particular a series with
exactly 2 data points and one drop gets 'X'. -/
theorem claim_C1_consecutive_decline (cells : List Cell) :
    ((analyzePopulationDecline cells).consecutive = "O" ↔
      hasTwoDrops ((lastN 5 (availPairs 0 cells)).map Prod.snd)) ∧
    ((availPairs 0 cells).length = 2 →
      (analyzePopulationDecline cells).consecutive = "X") := by
  have hfield : (analyzePopulationDecline cells).consecutive =
      (if 2 ≤ (consecRun (lastN 5 (availPairs 0 cells))).1 then "O" else "X") := rfl
  have hiff : ((analyzePopulationDecline cells).consecutive = "O") ↔
      2 ≤ (consecRun (lastN 5 (availPairs 0 cells))).1 := by
    rw [hfield]
    by_cases h : 2 ≤ (consecRun (lastN 5 (availPairs 0 cells))).1
    · rw [if_pos h]
      exact ⟨fun _ => h, fun _ => rfl⟩
    · rw [if_neg h]
      exact ⟨fun hx => absurd hx (by decide), fun hc => absurd hc h⟩
  constructor
  · rw [hiff]
    exact consecRun_ge_two_iff _
  · intro hlen
    have hlast : lastN 5 (availPairs 0 cells) = availPairs 0 cells := by
      unfold lastN
      rw [hlen]
      rfl
    have hno : ¬ hasTwoDrops ((lastN 5 (availPairs 0 cells)).map Prod.snd) := by
      intro h
      have h3 := hasTwoDrops_length h
      rw [hlast, List.length_map, hlen] at h3
      omega
    rw [hfield, if_neg (fun hge => hno ((consecRun_ge_two_iff _).mp hge))]

/-- Witness for C1: a 3-point strictly decreasing series is flagged 'O', and a
2-point series with one drop is flagged 'X'. -/
theorem claim_C1_witness :
    (analyzePopulationDecline [Cell.num 3, Cell.num 2, Cell.num 1]).consecutive = "O" ∧
    (analyzePopulationDecline [Cell.num 3, Cell.num 2]).consecutive = "X" :=
  ⟨(claim_C1_consecutive_decline [Cell.num 3, Cell.num 2, Cell.num 1]).1.mpr
      ⟨[], 3, 2, 1, [], by decide, by norm_num, by norm_num⟩,
    (claim_C1_consecutive_decline [Cell.num 3, Cell.num 2]).2 (by decide)⟩

theorem rate_eq_aux (vl : List ℚ) :
    (if vl.foldl max 0 > 0 ∧ (vl.getLast?).getD 0 > 0 then
        ((vl.getLast?).getD 0 - vl.foldl max 0) / vl.foldl max 0 * 100
      else 0) =
      (match vl.maximum, vl.getLast? with
        | some p, some m => if 0 < p ∧ 0 < m then (m - p) / p * 100 else 0
        | _, _ => 0) := by
  cases hv : vl.maximum with
  | bot =>
    have hnil : vl = [] := List.maximum_eq_none.mp hv
    subst hnil
    simp
  | coe p =>
    have hne : vl ≠ [] := by
      intro h
      subst h
      rw [List.maximum_eq_none.mpr rfl] at hv
      exact Option.noConfusion hv
    cases hl : vl.getLast? with
    | none =>
      rw [List.getLast?_eq_none_iff] at hl
      exact absurd hl hne
    | some m =>
      have hv2 : vl.maximum = (p : WithBot ℚ) := hv
      obtain ⟨hmem, hub⟩ := List.maximum_eq_coe_iff.mp hv2
      have h0M : (0 : ℚ) ≤ vl.foldl max 0 := le_foldl_max vl 0
      have hubM : ∀ x ∈ vl, x ≤ vl.foldl max 0 := mem_le_foldl_max vl 0
      have hpM : p ≤ vl.foldl max 0 := hubM p hmem
      by_cases hpos : 0 < p
      · have hMp : vl.foldl max 0 = p := by
          rcases foldl_max_mem vl 0 with h0 | hM
          · rw [h0] at hpM
            exact absurd hpos (not_lt.mpr hpM)
          · exact le_antisymm (hub _ hM) hpM
        rw [hMp]
        rfl
      · have hM0 : vl.foldl max 0 = 0 := by
          rcases foldl_max_mem vl 0 with h0 | hM
          · exact h0
          · exact le_antisymm (le_trans (hub _ hM) (not_lt.mp hpos)) h0M
        rw [hM0]
        have hcond : ¬((0 : ℚ) > 0 ∧ (some m).getD 0 > 0) := by
          rintro ⟨h0, _⟩
          exact absurd h0 (lt_irrefl 0)
        rw [if_neg hcond]
        show (0 : ℚ) = if 0 < p ∧ 0 < m then (m - p) / p * 100 else 0
        rw [if_neg (fun hc => hpos hc.1)]

/-- C2: the demographic decline rate equals (most recent − peak)/peak × 100
when both the peak value and the most recent available value are strictly
positive, and is exactly 0 in every other case. -/
theorem claim_C2_decline_rate (cells : List Cell) :
    (analyzePopulationDecline cells).declineRate = specDeclineRate cells := by
  have hrate : (analyzePopulationDecline cells).declineRate =
      (if (peakScan 0 0 none cells).1 > 0 ∧
          (((availPairs 0 cells).getLast?).map Prod.snd).getD 0 > 0 then
        ((((availPairs 0 cells).getLast?).map Prod.snd).getD 0 - (peakScan 0 0 none cells).1) /
          (peakScan 0 0 none cells).1 * 100
      else 0) := rfl
  have hlast : ((availPairs 0 cells).getLast?).map Prod.snd =
      ((availPairs 0 cells).map Prod.snd).getLast? := (List.getLast?_map _ _).symm
  rw [hrate, peakScan_fst cells 0 0 none le_rfl, hlast]
  exact rate_eq_aux ((availPairs 0 cells).map Prod.snd)

theorem windowPeak_eq (cells : List Cell) :
    windowPeak cells =
      (if 0 < ((availPairs (cells.length - 10) (lastN 10 cells)).map Prod.snd).foldl max 0 then
        ((availPairs (cells.length - 10) (lastN 10 cells)).find? (fun x =>
          decide (x.2 =
            ((availPairs (cells.length - 10) (lastN 10 cells)).map Prod.snd).foldl max 0))).map
          (fun x =>
            (x.1, ((availPairs (cells.length - 10) (lastN 10 cells)).map Prod.snd).foldl max 0))
      else none) := by
  set pts := availPairs (cells.length - 10) (lastN 10 cells) with hpts
  set M := (pts.map Prod.snd).foldl max 0 with hMdef
  show (match (pts.map Prod.snd).maximum with
    | some p => if 0 < p then (pts.find? (fun x => decide (x.2 = p))).map (fun x => (x.1, p))
        else none
    | none => none) =
      (if 0 < M then (pts.find? (fun x => decide (x.2 = M))).map (fun x => (x.1, M)) else none)
  cases hv : (pts.map Prod.snd).maximum with
  | bot =>
    have hmap : pts.map Prod.snd = [] := List.maximum_eq_none.mp hv
    have hM : M = 0 := by rw [hMdef, hmap]; rfl
    rw [if_neg (by rw [hM]; exact lt_irrefl 0)]
  | coe p =>
    show (if 0 < p then (pts.find? (fun x => decide (x.2 = p))).map (fun x => (x.1, p))
        else none) = _
    obtain ⟨hmem, hub⟩ := List.maximum_eq_coe_iff.mp hv
    have h0M : (0 : ℚ) ≤ M := le_foldl_max _ 0
    have hpM : p ≤ M := mem_le_foldl_max _ 0 p hmem
    by_cases hpos : 0 < p
    · have hMp : M = p := by
        rcases foldl_max_mem (pts.map Prod.snd) 0 with h0 | hM
        · rw [hMdef] at *
          rw [h0] at hpM
          exact absurd hpos (not_lt.mpr hpM)
        · exact le_antisymm (hub _ hM) hpM
      rw [hMp]
    · have hM0 : M = 0 := by
        rcases foldl_max_mem (pts.map Prod.snd) 0 with h0 | hM
        · exact h0
        · exact le_antisymm (le_trans (hub _ hM) (not_lt.mp hpos)) h0M
      rw [if_neg hpos, if_neg (by rw [hM0]; exact lt_irrefl 0)]

/-- Counterexample input for C3: a region with data in the first year and the
eleventh year of an 11-year axis; the code's calendar slice(-10) window misses
the first data point, while the last 10 years with data contain it. -/
def bizCounterCells : List Cell :=
  [Cell.num 100] ++ List.replicate 9 Cell.junk ++ [Cell.num 50]

/-- C3 counterexample: on `bizCounterCells` the economic analyzer marks the
peak at year index 10 (value 50), while the claimed rule (maximum over the
most recent 10 years with data, first year attaining it) picks index 0
(value 100). -/
theorem claim_C3_counterexample :
    (analyzeBusinessDecline bizCounterCells).isMax ≠ (specBizPeak bizCounterCells).map Prod.fst := by
  decide

/-- C3 amended: the economic peak detection is restricted to the last 10
entries of the sorted year axis, with or without data for the region; within
that window the peak value is the maximum numeric value (bounded below by 0)
and the marked peak year is the first window year attaining it, none being
marked when no window value is strictly positive. -/
theorem claim_C3_amended (cells : List Cell) :
    (analyzeBusinessDecline cells).isMax = (windowPeak cells).map Prod.fst ∧
    (analyzeBusinessDecline cells).maxValue = ((windowPeak cells).map Prod.snd).getD 0 := by
  have hfst : (analyzeBusinessDecline cells).maxValue =
      ((availPairs (cells.length - 10) (lastN 10 cells)).map Prod.snd).foldl max 0 := by
    show (peakScan (cells.length - 10) 0 none (lastN 10 cells)).1 = _
    exact peakScan_fst _ _ 0 none le_rfl
  have hsnd : (analyzeBusinessDecline cells).isMax =
      (if (0 : ℚ) < ((availPairs (cells.length - 10) (lastN 10 cells)).map Prod.snd).foldl max 0 then
        ((availPairs (cells.length - 10) (lastN 10 cells)).find? (fun x =>
          decide (x.2 =
            ((availPairs (cells.length - 10) (lastN 10 cells)).map Prod.snd).foldl max 0))).map
          Prod.fst
      else none) := by
    show (peakScan (cells.length - 10) 0 none (lastN 10 cells)).2 = _
    exact peakScan_snd _ _ 0 none le_rfl
  rw [hfst, hsnd, windowPeak_eq cells]
  set pts := availPairs (cells.length - 10) (lastN 10 cells) with hpts
  set M := (pts.map Prod.snd).foldl max 0 with hMdef
  constructor
  · by_cases hc : 0 < M
    · rw [if_pos hc, if_pos hc]
      cases pts.find? (fun x => decide (x.2 = M)) with
      | none => rfl
      | some y => rfl
    · rw [if_neg hc, if_neg hc]
      rfl
  · by_cases hc : 0 < M
    · rw [if_pos hc]
      have hMmem : M ∈ pts.map Prod.snd := by
        rcases foldl_max_mem (pts.map Prod.snd) 0 with h0 | h
        · exact absurd hc (by rw [hMdef, h0]; exact lt_irrefl 0)
        · exact h
      obtain ⟨x, hxmem, hx2⟩ := List.mem_map.mp hMmem
      have hfind : ∃ y, pts.find? (fun x => decide (x.2 = M)) = some y := by
        cases hf : pts.find? (fun x => decide (x.2 = M)) with
        | some y => exact ⟨y, rfl⟩
        | none =>
          have hnone := List.find?_eq_none.mp hf x hxmem
          simp only [hx2, decide_eq_true_eq] at hnone
          exact (hnone trivial).elim
      obtain ⟨y, hy⟩ := hfind
      rw [hy]
      rfl
    · rw [if_neg hc]
      have hM0 : M = 0 := le_antisymm (not_lt.mp hc) (le_foldl_max _ 0)
      rw [hM0]
      rfl

/-- A JS object of string-valued fields (a pivoted or cached result row),
modelled as an insertion-ordered association list with unique keys. -/
abbrev Row := List (String × String)

/-- Property read row[k]: the value of the binding of k, if any. -/
def rowGet (row : Row) (k : String) : Option String :=
  (row.find? (fun p => decide (p.1 = k))).map Prod.snd

/-- Property write row[k] = v: overwrite in place keeping position, else
append (JS object insertion order). -/
def rowSet (row : Row) (k v : String) : Row :=
  if row.any (fun p => decide (p.1 = k)) then
    row.map (fun p => if p.1 = k then (k, v) else p)
  else row ++ [(k, v)]

/-- JS `x || d` for an optional string field: undefined and '' are falsy. -/
def jsOr (v : Option String) (d : String) : String :=
  match v with
  | some s => if s = "" then d else s
  | none => d

/-- Region code of a cached row (row.region_code). -/
def rowCode (row : Row) : String := (rowGet row "region_code").getD ""

/-- Region codes of a list of cached rows, in order. -/
def rowCodes (l : List Row) : List String := l.map rowCode

/-- One merged summary row of processAllIndicators. -/
structure SRow where
  region_code : String
  population_decline_rate_pct : String
  population_decline_rate : String
  population_consecutive_decline : String
  population_category_met : String
  industry_decline_rate_pct : String
  industry_decline_rate : String
  industry_consecutive_decline : String
  industry_category_met : String
  environment_old_building_pct : String
  environment_old_building : String
  environment_category_met : String
  total_categories_met : Nat
deriving DecidableEq, Repr

/-- Count of 'O' values among the three per-category verdict fields. -/
def SRow.metCount (r : SRow) : Nat :=
  (if r.population_category_met = "O" then 1 else 0) +
    (if r.industry_category_met = "O" then 1 else 0) +
    (if r.environment_category_met = "O" then 1 else 0)

/-- Region codes of summary rows, in order. -/
def codesOf (l : List SRow) : List String := l.map SRow.region_code

/-- Update-or-insert on the insertion-ordered regionsMap: JS Map.set and the
has/get/set pattern of the merge passes both rewrite the value of an existing
key in place and append a new key at the end. -/
def updOr (l : List SRow) (c : String) (g : SRow → SRow) (fresh : SRow) : List SRow :=
  if l.any (fun r => decide (r.region_code = c)) then
    l.map (fun r => if r.region_code = c then g r else r)
  else l ++ [fresh]

/-- One merge pass over a cached category result: for each cached row, update
the region's summary row (or insert a fresh one), keyed by region_code. -/
def foldPass (vals : Row → V) (upd : V → SRow → SRow) (freshF : String → V → SRow) :
    List Row → List SRow → List SRow
  | [], l => l
  | row :: rest, l =>
    foldPass vals upd freshF rest
      (updOr l (rowCode row) (upd (vals row)) (freshF (rowCode row) (vals row)))

/-- Summary row built from a cached demographic row (first merge pass of
processAllIndicators): industry and environment fields defaulted. -/
def popSRow (row : Row) : SRow :=
  let pct := jsOr (rowGet row "DeclineRate") "0%"
  let dr := jsOr (rowGet row "Decline_20pct") "X"
  let cd := jsOr (rowGet row "ConsecutiveDecline") "X"
  let met := if dr = "O" ∨ cd = "O" then "O" else "X"
  { region_code := rowCode row
    population_decline_rate_pct := pct
    population_decline_rate := dr
    population_consecutive_decline := cd
    population_category_met := met
    industry_decline_rate_pct := "0%"
    industry_decline_rate := "X"
    industry_consecutive_decline := "X"
    industry_category_met := "X"
    environment_old_building_pct := "0%"
    environment_old_building := "X"
    environment_category_met := "X"
    total_categories_met := if met = "O" then 1 else 0 }

/-- Industry fields extracted from a cached economic row. -/
structure IndVals where
  pct : String
  dr : String
  cd : String
  met : String
deriving DecidableEq, Repr

def indVals (row : Row) : IndVals :=
  let pct := jsOr (rowGet row "BusinessDeclineRate") "0%"
  let dr := jsOr (rowGet row "BusinessDeclineOver5%") "X"
  let cd := jsOr (rowGet row "BusinessConsecDecline") "X"
  { pct := pct, dr := dr, cd := cd
    met := if dr = "O" ∨ cd = "O" then "O" else "X" }

/-- Second-pass update of an existing region from the economic result. -/
def indUpdate (v : IndVals) (r : SRow) : SRow :=
  { r with
    industry_decline_rate_pct := v.pct
    industry_decline_rate := v.dr
    industry_consecutive_decline := v.cd
    industry_category_met := v.met
    total_categories_met :=
      if v.met = "O" then r.total_categories_met + 1 else r.total_categories_met }

/-- Second-pass insertion of a region seen only in the economic result. -/
def indFresh (c : String) (v : IndVals) : SRow :=
  { region_code := c
    population_decline_rate_pct := "0%"
    population_decline_rate := "X"
    population_consecutive_decline := "X"
    population_category_met := "X"
    industry_decline_rate_pct := v.pct
    industry_decline_rate := v.dr
    industry_consecutive_decline := v.cd
    industry_category_met := v.met
    environment_old_building_pct := "0%"
    environment_old_building := "X"
    environment_category_met := "X"
    total_categories_met := if v.met = "O" then 1 else 0 }

/-- Environment fields extracted from a cached physical-stock row; the
category-met value is the old-building criterion itself. -/
structure EnvVals where
  pct : String
  ob : String
  met : String
deriving DecidableEq, Repr

def envVals (row : Row) : EnvVals :=
  let pct := jsOr (rowGet row "old_building_percentage") "0%"
  let ob := jsOr (rowGet row "old_building_criterion") "X"
  { pct := pct, ob := ob, met := ob }

/-- Third-pass update of an existing region from the physical-stock result. -/
def envUpdate (v : EnvVals) (r : SRow) : SRow :=
  { r with
    environment_old_building_pct := v.pct
    environment_old_building := v.ob
    environment_category_met := v.met
    total_categories_met :=
      if v.met = "O" then r.total_categories_met + 1 else r.total_categories_met }

/-- Third-pass insertion of a region seen only in the physical-stock result. -/
def envFresh (c : String) (v : EnvVals) : SRow :=
  { region_code := c
    population_decline_rate_pct := "0%"
    population_decline_rate := "X"
    population_consecutive_decline := "X"
    population_category_met := "X"
    industry_decline_rate_pct := "0%"
    industry_decline_rate := "X"
    industry_consecutive_decline := "X"
    industry_category_met := "X"
    environment_old_building_pct := v.pct
    environment_old_building := v.ob
    environment_category_met := v.met
    total_categories_met := if v.met = "O" then 1 else 0 }

/-- First merge pass: every demographic region is written (Map.set) with a
freshly built summary row. -/
def pass1 : List Row → List SRow → List SRow :=
  foldPass id (fun row _ => popSRow row) (fun _ row => popSRow row)

/-- Second merge pass over the cached economic rows. -/
def pass2 : List Row → List SRow → List SRow :=
  foldPass indVals indUpdate indFresh

/-- Third merge pass over the cached physical-stock rows. -/
def pass3 : List Row → List SRow → List SRow :=
  foldPass envVals envUpdate envFresh

/-- Merged pre-sort summary rows of processAllIndicators, in insertion
order: demographic regions first, then new economic regions, then new
physical-stock regions. -/
def mergeRows (pop ind env : List Row) : List SRow :=
  pass3 env (pass2 ind (pass1 pop []))

/-- Stable insert of the descending sort by total_categories_met.  The
source sorts with the comparator (a, b) => b.total - a.total using the
stable Array.prototype.sort; a stable sort by a total preorder is unique,
so this insertion sort computes exactly its result. -/
def insertSRow (x : SRow) : List SRow → List SRow
  | [] => [x]
  | y :: ys =>
    if x.total_categories_met < y.total_categories_met then y :: insertSRow x ys
    else x :: y :: ys

/-- Stable descending sort by total_categories_met. -/
def sortSummary (l : List SRow) : List SRow := l.foldr insertSRow []

/-- The summary rows of processAllIndicators: merged, then sorted by
total_categories_met descending. -/
def summaryRows (pop ind env : List Row) : List SRow :=
  sortSummary (mergeRows pop ind env)

theorem rowCodes_cons (row : Row) (rest : List Row) :
    rowCodes (row :: rest) = rowCode row :: rowCodes rest := rfl

theorem codesOf_append (l1 l2 : List SRow) :
    codesOf (l1 ++ l2) = codesOf l1 ++ codesOf l2 := List.map_append _ _ _

theorem any_code_iff (l : List SRow) (c : String) :
    l.any (fun r => decide (r.region_code = c)) = true ↔ c ∈ codesOf l := by
  rw [List.any_eq_true]
  constructor
  · rintro ⟨r, hr, hc⟩
    rw [decide_eq_true_eq] at hc
    exact List.mem_map.mpr ⟨r, hr, hc⟩
  · intro hc
    obtain ⟨r, hr, hrc⟩ := List.mem_map.mp hc
    exact ⟨r, hr, by rw [decide_eq_true_eq]; exact hrc⟩

theorem updOr_origin {l : List SRow} {c : String} {g : SRow → SRow} {fresh : SRow} {r : SRow}
    (hr : r ∈ updOr l c g fresh) :
    (∃ s ∈ l, s.region_code = c ∧ r = g s) ∨ (∃ s ∈ l, s.region_code ≠ c ∧ r = s) ∨
      (r = fresh ∧ ∀ s ∈ l, s.region_code ≠ c) := by
  unfold updOr at hr
  by_cases hany : l.any (fun r => decide (r.region_code = c)) = true
  · rw [if_pos hany] at hr
    obtain ⟨s, hs, hfs⟩ := List.mem_map.mp hr
    by_cases hsc : s.region_code = c
    · rw [if_pos hsc] at hfs
      exact Or.inl ⟨s, hs, hsc, hfs.symm⟩
    · rw [if_neg hsc] at hfs
      exact Or.inr (Or.inl ⟨s, hs, hsc, hfs.symm⟩)
  · rw [if_neg hany] at hr
    have hall : ∀ s ∈ l, s.region_code ≠ c := by
      intro s hs hsc
      exact hany (List.any_eq_true.mpr ⟨s, hs, by rw [decide_eq_true_eq]; exact hsc⟩)
    rcases List.mem_append.mp hr with h | h
    · exact Or.inr (Or.inl ⟨r, h, hall r h, rfl⟩)
    · exact Or.inr (Or.inr ⟨List.mem_singleton.mp h, hall⟩)

theorem updOr_codes {l : List SRow} {c : String} {g : SRow → SRow} {fresh : SRow}
    (hg : ∀ s ∈ l, s.region_code = c → (g s).region_code = c)
    (hf : fresh.region_code = c) :
    codesOf (updOr l c g fresh) =
      if c ∈ codesOf l then codesOf l else codesOf l ++ [c] := by
  unfold updOr
  by_cases hany : l.any (fun r => decide (r.region_code = c)) = true
  · rw [if_pos hany, if_pos ((any_code_iff l c).mp hany)]
    unfold codesOf
    rw [List.map_map]
    refine List.map_congr_left ?_
    intro s hs
    show SRow.region_code (if s.region_code = c then g s else s) = s.region_code
    by_cases hsc : s.region_code = c
    · rw [if_pos hsc, hg s hs hsc, hsc]
    · rw [if_neg hsc]
  · rw [if_neg hany, if_neg (fun hm => hany ((any_code_iff l c).mpr hm))]
    rw [codesOf_append]
    unfold codesOf
    rw [List.map_singleton, hf]

theorem updOr_untouched {l : List SRow} {c : String} {g : SRow → SRow} {fresh : SRow} {r : SRow}
    (hg : ∀ s ∈ l, s.region_code = c → (g s).region_code = c)
    (hf : fresh.region_code = c)
    (hr : r ∈ updOr l c g fresh) (hne : r.region_code ≠ c) : r ∈ l := by
  rcases updOr_origin hr with ⟨s, hs, hsc, rfl⟩ | ⟨s, hs, _, rfl⟩ | ⟨rfl, _⟩
  · exact absurd (hg s hs hsc) hne
  · exact hs
  · exact absurd hf hne

theorem foldPass_codes_mem {V : Type} {vals : Row → V} {upd : V → SRow → SRow}
    {freshF : String → V → SRow}
    (hcode : ∀ (row : Row) (s : SRow), s.region_code = rowCode row →
      (upd (vals row) s).region_code = rowCode row)
    (hfcode : ∀ row : Row, (freshF (rowCode row) (vals row)).region_code = rowCode row) :
    ∀ (rows : List Row) (l : List SRow) (x : String),
      x ∈ codesOf (foldPass vals upd freshF rows l) ↔ x ∈ codesOf l ∨ x ∈ rowCodes rows := by
  intro rows
  induction rows with
  | nil =>
    intro l x
    show x ∈ codesOf l ↔ x ∈ codesOf l ∨ x ∈ ([] : List String)
    simp
  | cons row rest ih =>
    intro l x
    show x ∈ codesOf (foldPass vals upd freshF rest _) ↔ _
    rw [ih, updOr_codes (fun s _ h => hcode row s h) (hfcode row), rowCodes_cons,
      List.mem_cons]
    by_cases hmem : rowCode row ∈ codesOf l
    · rw [if_pos hmem]
      constructor
      · rintro (h | h)
        · exact Or.inl h
        · exact Or.inr (Or.inr h)
      · rintro (h | rfl | h)
        · exact Or.inl h
        · exact Or.inl hmem
        · exact Or.inr h
    · rw [if_neg hmem, List.mem_append, List.mem_singleton, or_assoc]

theorem foldPass_untouched {V : Type} {vals : Row → V} {upd : V → SRow → SRow}
    {freshF : String → V → SRow}
    (hcode : ∀ (row : Row) (s : SRow), s.region_code = rowCode row →
      (upd (vals row) s).region_code = rowCode row)
    (hfcode : ∀ row : Row, (freshF (rowCode row) (vals row)).region_code = rowCode row) :
    ∀ (rows : List Row) (l : List SRow) (r : SRow),
      r ∈ foldPass vals upd freshF rows l → r.region_code ∉ rowCodes rows → r ∈ l := by
  intro rows
  induction rows with
  | nil => intro l r hr _; exact hr
  | cons row rest ih =>
    intro l r hr hnot
    rw [rowCodes_cons, List.mem_cons] at hnot
    push_neg at hnot
    exact updOr_untouched (fun s _ h => hcode row s h) (hfcode row) (ih _ r hr hnot.2) hnot.1

theorem foldPass_origin {V : Type} {vals : Row → V} {upd : V → SRow → SRow}
    {freshF : String → V → SRow} {K : SRow → SRow → Prop} {D : SRow → Prop}
    (hcode : ∀ (row : Row) (s : SRow), s.region_code = rowCode row →
      (upd (vals row) s).region_code = rowCode row)
    (hKrefl : ∀ s, K s s) (hKtrans : ∀ a b c, K a b → K b c → K a c)
    (hKupd : ∀ (row : Row) (s : SRow), K s (upd (vals row) s))
    (hDfresh : ∀ row : Row, D (freshF (rowCode row) (vals row)))
    (hKD : ∀ s r, D s → K s r → D r) :
    ∀ (rows : List Row) (l : List SRow) (r : SRow),
      r ∈ foldPass vals upd freshF rows l →
      (∃ s ∈ l, s.region_code = r.region_code ∧ K s r) ∨ D r := by
  intro rows
  induction rows with
  | nil => intro l r hr; exact Or.inl ⟨r, hr, rfl, hKrefl r⟩
  | cons row rest ih =>
    intro l r hr
    rcases ih _ r hr with ⟨s, hs, hsc, hK⟩ | hD
    · rcases updOr_origin hs with ⟨t, ht, htc, heq⟩ | ⟨t, ht, _, heq⟩ | ⟨heq, _⟩
      · subst heq
        refine Or.inl ⟨t, ht, ?_, hKtrans _ _ _ (hKupd row t) hK⟩
        rw [← hsc, hcode row t htc, htc]
      · subst heq
        exact Or.inl ⟨s, ht, hsc, hK⟩
      · subst heq
        exact Or.inr (hKD _ _ (hDfresh row) hK)
    · exact Or.inr hD

theorem foldPass_inv {V : Type} {vals : Row → V} {upd : V → SRow → SRow}
    {freshF : String → V → SRow} {P Q : SRow → Prop}
    (hcode : ∀ (row : Row) (s : SRow), s.region_code = rowCode row →
      (upd (vals row) s).region_code = rowCode row)
    (hfcode : ∀ row : Row, (freshF (rowCode row) (vals row)).region_code = rowCode row)
    (hPQ : ∀ (row : Row) (s : SRow), P s → Q s → P (upd (vals row) s))
    (hPfresh : ∀ row : Row, P (freshF (rowCode row) (vals row))) :
    ∀ (rows : List Row) (l : List SRow), (rowCodes rows).Nodup →
      (∀ r ∈ l, P r) → (∀ r ∈ l, r.region_code ∈ rowCodes rows → Q r) →
      ∀ r ∈ foldPass vals upd freshF rows l, P r := by
  intro rows
  induction rows with
  | nil => intro l _ hP _ r hr; exact hP r hr
  | cons row rest ih =>
    intro l hnd hP hQ r hr
    rw [rowCodes_cons] at hnd
    obtain ⟨hhead, htail⟩ := List.nodup_cons.mp hnd
    refine ih _ htail ?_ ?_ r hr
    · intro t ht
      rcases updOr_origin ht with ⟨s, hs, hsc, heq⟩ | ⟨s, hs, _, heq⟩ | ⟨heq, _⟩
      · subst heq
        exact hPQ row s (hP s hs)
          (hQ s hs (by rw [rowCodes_cons]; exact List.mem_cons.mpr (Or.inl hsc)))
      · subst heq
        exact hP t hs
      · subst heq
        exact hPfresh row
    · intro t ht htc
      rcases updOr_origin ht with ⟨s, hs, hsc, heq⟩ | ⟨s, hs, _, heq⟩ | ⟨heq, _⟩
      · subst heq
        rw [hcode row s hsc] at htc
        exact absurd htc hhead
      · subst heq
        exact hQ t hs (by rw [rowCodes_cons]; exact List.mem_cons.mpr (Or.inr htc))
      · subst heq
        rw [hfcode row] at htc
        exact absurd htc hhead

theorem foldPass_codes {V : Type} {vals : Row → V} {upd : V → SRow → SRow}
    {freshF : String → V → SRow}
    (hcode : ∀ (row : Row) (s : SRow), s.region_code = rowCode row →
      (upd (vals row) s).region_code = rowCode row)
    (hfcode : ∀ row : Row, (freshF (rowCode row) (vals row)).region_code = rowCode row) :
    ∀ (rows : List Row) (l : List SRow), (rowCodes rows).Nodup →
      codesOf (foldPass vals upd freshF rows l) =
        codesOf l ++ (rowCodes rows).filter (fun c => decide (c ∉ codesOf l)) := by
  intro rows
  induction rows with
  | nil =>
    intro l _
    show codesOf l = codesOf l ++ List.filter _ []
    simp
  | cons row rest ih =>
    intro l hnd
    rw [rowCodes_cons] at hnd
    obtain ⟨hhead, htail⟩ := List.nodup_cons.mp hnd
    show codesOf (foldPass vals upd freshF rest _) = _
    rw [ih _ htail, updOr_codes (fun s _ h => hcode row s h) (hfcode row), rowCodes_cons,
      List.filter_cons]
    by_cases hmem : rowCode row ∈ codesOf l
    · rw [if_pos hmem]
      have hdec : (decide (rowCode row ∉ codesOf l)) = false := by
        simp only [decide_eq_false_iff_not, not_not]
        exact hmem
      rw [hdec]
      rfl
    · rw [if_neg hmem]
      have hdec : (decide (rowCode row ∉ codesOf l)) = true := by
        simp only [decide_eq_true_eq]
        exact hmem
      rw [hdec]
      have hfc : (rowCodes rest).filter
            (fun c => decide (c ∉ codesOf l ++ [rowCode row])) =
          (rowCodes rest).filter (fun c => decide (c ∉ codesOf l)) := by
        refine List.filter_congr ?_
        intro c hc
        have hcne : c ≠ rowCode row := fun h => hhead (h ▸ hc)
        simp only [decide_eq_decide, List.mem_append, List.mem_singleton]
        constructor
        · intro hn hm
          exact hn (Or.inl hm)
        · rintro hn (hm | hm)
          · exact hn hm
          · exact hcne hm
      rw [hfc, List.append_assoc, List.singleton_append]
      rfl

/-- Descending order on summary rows by total_categories_met. -/
def sortedDesc (l : List SRow) : Prop :=
  l.Pairwise (fun a b => b.total_categories_met ≤ a.total_categories_met)

theorem insertSRow_perm (x : SRow) (l : List SRow) :
    List.Perm (insertSRow x l) (x :: l) := by
  induction l with
  | nil => exact List.Perm.refl _
  | cons y ys ih =>
    simp only [insertSRow]
    by_cases h : x.total_categories_met < y.total_categories_met
    · rw [if_pos h]
      exact (ih.cons y).trans (List.Perm.swap x y ys)
    · rw [if_neg h]

theorem sortSummary_perm (l : List SRow) : List.Perm (sortSummary l) l := by
  induction l with
  | nil => exact List.Perm.refl _
  | cons x t ih =>
    exact (insertSRow_perm x (sortSummary t)).trans (ih.cons x)

theorem mem_sortSummary {r : SRow} {l : List SRow} : r ∈ sortSummary l ↔ r ∈ l :=
  (sortSummary_perm l).mem_iff

theorem insertSRow_sorted (x : SRow) (l : List SRow) (h : sortedDesc l) :
    sortedDesc (insertSRow x l) := by
  induction l with
  | nil => exact List.pairwise_singleton _ _
  | cons y ys ih =>
    obtain ⟨hy, hys⟩ := List.pairwise_cons.mp h
    simp only [insertSRow]
    by_cases hc : x.total_categories_met < y.total_categories_met
    · rw [if_pos hc]
      refine List.pairwise_cons.mpr ⟨?_, ih hys⟩
      intro b hb
      rcases List.mem_cons.mp ((insertSRow_perm x ys).mem_iff.mp hb) with hbx | hbm
      · rw [hbx]
        exact le_of_lt hc
      · exact hy b hbm
    · rw [if_neg hc]
      refine List.pairwise_cons.mpr ⟨?_, h⟩
      intro b hb
      rcases List.mem_cons.mp hb with hbx | hbm
      · rw [hbx]
        exact not_lt.mp hc
      · exact le_trans (hy b hbm) (not_lt.mp hc)

theorem sortSummary_sorted (l : List SRow) : sortedDesc (sortSummary l) := by
  induction l with
  | nil => exact List.Pairwise.nil
  | cons x t ih => exact insertSRow_sorted x (sortSummary t) ih

theorem insertSRow_filter (x : SRow) (l : List SRow) (k : Nat) (h : sortedDesc l) :
    (insertSRow x l).filter (fun r => decide (r.total_categories_met = k)) =
      (if x.total_categories_met = k then
        x :: l.filter (fun r => decide (r.total_categories_met = k))
      else l.filter (fun r => decide (r.total_categories_met = k))) := by
  induction l with
  | nil =>
    by_cases hk : x.total_categories_met = k
    · simp [insertSRow, hk]
    · simp [insertSRow, hk]
  | cons y ys ih =>
    obtain ⟨hy, hys⟩ := List.pairwise_cons.mp h
    by_cases hc : x.total_categories_met < y.total_categories_met
    · have hstep : insertSRow x (y :: ys) = y :: insertSRow x ys := by
        simp [insertSRow, hc]
      by_cases hk : x.total_categories_met = k
      · have hyk : ¬ (y.total_categories_met = k) := by
          rw [← hk]
          exact ne_of_gt hc
        simp [hstep, List.filter_cons, ih hys, hk, hyk]
      · simp [hstep, List.filter_cons, ih hys, hk]
    · have hstep : insertSRow x (y :: ys) = x :: y :: ys := by
        simp [insertSRow, hc]
      by_cases hk : x.total_categories_met = k
      · simp [hstep, List.filter_cons, hk]
      · simp [hstep, List.filter_cons, hk]

theorem sortSummary_filter (l : List SRow) (k : Nat) :
    (sortSummary l).filter (fun r => decide (r.total_categories_met = k)) =
      l.filter (fun r => decide (r.total_categories_met = k)) := by
  induction l with
  | nil => rfl
  | cons x t ih =>
    have hstep : sortSummary (x :: t) = insertSRow x (sortSummary t) := rfl
    rw [hstep, insertSRow_filter x (sortSummary t) k (sortSummary_sorted t), ih,
      List.filter_cons]
    by_cases hk : x.total_categories_met = k
    · simp [hk]
    · simp [hk]

theorem popSRow_code (row : Row) : (popSRow row).region_code = rowCode row := rfl

theorem indUpdate_code (v : IndVals) (s : SRow) :
    (indUpdate v s).region_code = s.region_code := rfl

theorem envUpdate_code (v : EnvVals) (s : SRow) :
    (envUpdate v s).region_code = s.region_code := rfl

/-- Pass invariant without a per-row extra condition (used for the first
pass, which overwrites unconditionally). -/
theorem foldPass_all {V : Type} {vals : Row → V} {upd : V → SRow → SRow}
    {freshF : String → V → SRow} {P : SRow → Prop}
    (hPupd : ∀ (row : Row) (s : SRow), P (upd (vals row) s))
    (hPfresh : ∀ row : Row, P (freshF (rowCode row) (vals row))) :
    ∀ (rows : List Row) (l : List SRow), (∀ r ∈ l, P r) →
      ∀ r ∈ foldPass vals upd freshF rows l, P r := by
  intro rows
  induction rows with
  | nil => intro l hP r hr; exact hP r hr
  | cons row rest ih =>
    intro l hP r hr
    refine ih _ ?_ r hr
    intro t ht
    rcases updOr_origin ht with ⟨s, hs, hsc, heq⟩ | ⟨s, hs, _, heq⟩ | ⟨heq, _⟩
    · subst heq
      exact hPupd row s
    · subst heq
      exact hP t hs
    · subst heq
      exact hPfresh row

theorem popSRow_inv (row : Row) :
    ((popSRow row).total_categories_met = (popSRow row).metCount ∧
      (popSRow row).environment_category_met = "X") ∧
      (popSRow row).industry_category_met = "X" := by
  unfold popSRow SRow.metCount
  by_cases hm : (jsOr (rowGet row "Decline_20pct") "X" = "O" ∨
      jsOr (rowGet row "ConsecutiveDecline") "X" = "O")
  · simp [hm]
  · simp [hm]

theorem indUpdate_inv (row : Row) (s : SRow)
    (hP : s.total_categories_met = s.metCount ∧ s.environment_category_met = "X")
    (hQ : s.industry_category_met = "X") :
    (indUpdate (indVals row) s).total_categories_met =
        (indUpdate (indVals row) s).metCount ∧
      (indUpdate (indVals row) s).environment_category_met = "X" := by
  obtain ⟨htot, henv⟩ := hP
  unfold SRow.metCount at htot ⊢
  unfold indUpdate
  rw [hQ] at htot
  by_cases hm : (indVals row).met = "O"
  · simp only [hm, if_pos]
    simp only [htot]
    simp [henv]
  · simp only [hm, if_neg]
    simp only [htot]
    simp [henv, hm]

theorem indFresh_inv (row : Row) :
    ((indFresh (rowCode row) (indVals row)).total_categories_met =
        (indFresh (rowCode row) (indVals row)).metCount ∧
      (indFresh (rowCode row) (indVals row)).environment_category_met = "X") := by
  unfold indFresh SRow.metCount
  by_cases hm : (indVals row).met = "O"
  · simp [hm]
  · simp [hm]

theorem envUpdate_inv (row : Row) (s : SRow)
    (hP : s.total_categories_met = s.metCount)
    (hQ : s.environment_category_met = "X") :
    (envUpdate (envVals row) s).total_categories_met =
      (envUpdate (envVals row) s).metCount := by
  unfold SRow.metCount at hP ⊢
  unfold envUpdate
  rw [hQ] at hP
  by_cases hm : (envVals row).met = "O"
  · simp only [hm, if_pos]
    simp only [hP]
    simp
  · simp only [hm, if_neg]
    simp only [hP]
    simp [hm]

theorem envFresh_inv (row : Row) :
    (envFresh (rowCode row) (envVals row)).total_categories_met =
      (envFresh (rowCode row) (envVals row)).metCount := by
  unfold envFresh SRow.metCount
  by_cases hm : (envVals row).met = "O"
  · simp [hm]
  · simp [hm]

/-- C6: every row of the merged summary has total_categories_met in [0,3] and
equal to the number of 'O' values among its three per-category verdict
fields. -/
theorem claim_C6_total_categories (pop ind env : List Row)
    (hind : (rowCodes ind).Nodup) (henv : (rowCodes env).Nodup) :
    ∀ r ∈ summaryRows pop ind env,
      r.total_categories_met = r.metCount ∧ r.total_categories_met ≤ 3 := by
  have h1 : ∀ r ∈ pass1 pop [],
      (r.total_categories_met = r.metCount ∧ r.environment_category_met = "X") ∧
        r.industry_category_met = "X" :=
    foldPass_all (fun row _ => popSRow_inv row) (fun row => popSRow_inv row) pop []
      (fun r hr => absurd hr (List.not_mem_nil r))
  have h2 : ∀ r ∈ pass2 ind (pass1 pop []),
      r.total_categories_met = r.metCount ∧ r.environment_category_met = "X" :=
    foldPass_inv (fun row s h => (indUpdate_code _ s).trans h) (fun row => rfl)
      (fun row s hP hQ => indUpdate_inv row s hP hQ) (fun row => indFresh_inv row)
      ind (pass1 pop []) hind (fun r hr => (h1 r hr).1) (fun r hr _ => (h1 r hr).2)
  have h3 : ∀ r ∈ pass3 env (pass2 ind (pass1 pop [])),
      r.total_categories_met = r.metCount :=
    foldPass_inv (fun row s h => (envUpdate_code _ s).trans h) (fun row => rfl)
      (fun row s hP hQ => envUpdate_inv row s hP hQ) (fun row => envFresh_inv row)
      env _ henv (fun r hr => (h2 r hr).1) (fun r hr _ => (h2 r hr).2)
  intro r hr
  have hmem : r ∈ mergeRows pop ind env := mem_sortSummary.mp hr
  have htot := h3 r hmem
  refine ⟨htot, ?_⟩
  rw [htot]
  unfold SRow.metCount
  split_ifs <;> omega

/-- The four population fields of a summary row. -/
def popF (r : SRow) : String × String × String × String :=
  (r.population_decline_rate_pct, r.population_decline_rate,
    r.population_consecutive_decline, r.population_category_met)

/-- The four industry fields of a summary row. -/
def indF (r : SRow) : String × String × String × String :=
  (r.industry_decline_rate_pct, r.industry_decline_rate,
    r.industry_consecutive_decline, r.industry_category_met)

/-- The three environment fields of a summary row. -/
def envF (r : SRow) : String × String × String :=
  (r.environment_old_building_pct, r.environment_old_building,
    r.environment_category_met)

/-- Population fields defaulted: rate field '0%', verdict fields 'X'. -/
def popDefaults (r : SRow) : Prop := popF r = ("0%", "X", "X", "X")

/-- Industry fields defaulted: rate field '0%', verdict fields 'X'. -/
def indDefaults (r : SRow) : Prop := indF r = ("0%", "X", "X", "X")

/-- Environment fields defaulted: rate field '0%', verdict fields 'X'. -/
def envDefaults (r : SRow) : Prop := envF r = ("0%", "X", "X")

/-- The second pass keeps the population and environment fields. -/
def keepsPopEnv (s r : SRow) : Prop := popF s = popF r ∧ envF s = envF r

/-- The third pass keeps the population and industry fields. -/
def keepsPopInd (s r : SRow) : Prop := popF s = popF r ∧ indF s = indF r

theorem keepsPopEnv_refl (s : SRow) : keepsPopEnv s s := ⟨rfl, rfl⟩

theorem keepsPopEnv_trans (a b c : SRow) (h1 : keepsPopEnv a b) (h2 : keepsPopEnv b c) :
    keepsPopEnv a c := ⟨h1.1.trans h2.1, h1.2.trans h2.2⟩

theorem keepsPopInd_refl (s : SRow) : keepsPopInd s s := ⟨rfl, rfl⟩

theorem keepsPopInd_trans (a b c : SRow) (h1 : keepsPopInd a b) (h2 : keepsPopInd b c) :
    keepsPopInd a c := ⟨h1.1.trans h2.1, h1.2.trans h2.2⟩

theorem keepsPopEnv_indUpdate (v : IndVals) (s : SRow) :
    keepsPopEnv s (indUpdate v s) := ⟨rfl, rfl⟩

theorem keepsPopInd_envUpdate (v : EnvVals) (s : SRow) :
    keepsPopInd s (envUpdate v s) := ⟨rfl, rfl⟩

theorem indFresh_defaults (c : String) (v : IndVals) :
    popDefaults (indFresh c v) ∧ envDefaults (indFresh c v) := ⟨rfl, rfl⟩

theorem envFresh_defaults (c : String) (v : EnvVals) :
    popDefaults (envFresh c v) ∧ indDefaults (envFresh c v) := ⟨rfl, rfl⟩

theorem popSRow_defaults (row : Row) :
    indDefaults (popSRow row) ∧ envDefaults (popSRow row) := ⟨rfl, rfl⟩

theorem keepsPopEnv_transfer (s r : SRow) (hD : popDefaults s ∧ envDefaults s)
    (hK : keepsPopEnv s r) : popDefaults r ∧ envDefaults r :=
  ⟨hK.1.symm.trans hD.1, hK.2.symm.trans hD.2⟩

theorem keepsPopInd_transfer (s r : SRow) (hD : popDefaults s ∧ indDefaults s)
    (hK : keepsPopInd s r) : popDefaults r ∧ indDefaults r :=
  ⟨hK.1.symm.trans hD.1, hK.2.symm.trans hD.2⟩

/-- C7: the summary region-code set is the exact union of the region codes of
the three cached category results, and a region absent from a category keeps
that category's default fields ('X' verdicts, '0%' rate). -/
theorem claim_C7_union_defaults (pop ind env : List Row) :
    (∀ c, c ∈ codesOf (summaryRows pop ind env) ↔
      c ∈ rowCodes pop ∨ c ∈ rowCodes ind ∨ c ∈ rowCodes env) ∧
    (∀ r ∈ summaryRows pop ind env,
      (r.region_code ∉ rowCodes pop → popDefaults r) ∧
      (r.region_code ∉ rowCodes ind → indDefaults r) ∧
      (r.region_code ∉ rowCodes env → envDefaults r)) := by
  have e1 := @foldPass_codes_mem Row id (fun row _ => popSRow row) (fun _ row => popSRow row)
    (fun _ _ _ => rfl) (fun _ => rfl) pop ([] : List SRow)
  have e2 := @foldPass_codes_mem IndVals indVals indUpdate indFresh
    (fun row s h => (indUpdate_code _ s).trans h) (fun _ => rfl) ind (pass1 pop [])
  have e3 := @foldPass_codes_mem EnvVals envVals envUpdate envFresh
    (fun row s h => (envUpdate_code _ s).trans h) (fun _ => rfl) env
    (pass2 ind (pass1 pop []))
  constructor
  · intro c
    have hmemS : c ∈ codesOf (summaryRows pop ind env) ↔
        c ∈ codesOf (mergeRows pop ind env) :=
      ((sortSummary_perm (mergeRows pop ind env)).map SRow.region_code).mem_iff
    rw [hmemS]
    constructor
    · intro h
      rcases (e3 c).mp h with h | h
      · rcases (e2 c).mp h with h | h
        · rcases (e1 c).mp h with h | h
          · exact absurd h (List.not_mem_nil c)
          · exact Or.inl h
        · exact Or.inr (Or.inl h)
      · exact Or.inr (Or.inr h)
    · rintro (h | h | h)
      · exact (e3 c).mpr (Or.inl ((e2 c).mpr (Or.inl ((e1 c).mpr (Or.inr h)))))
      · exact (e3 c).mpr (Or.inl ((e2 c).mpr (Or.inr h)))
      · exact (e3 c).mpr (Or.inr h)
  · intro r hr
    have hmem : r ∈ mergeRows pop ind env := mem_sortSummary.mp hr
    have pass1_def : ∀ t ∈ pass1 pop [], indDefaults t ∧ envDefaults t :=
      @foldPass_all Row id (fun row _ => popSRow row) (fun _ row => popSRow row)
        (fun t => indDefaults t ∧ envDefaults t)
        (fun row _ => popSRow_defaults row) (fun row => popSRow_defaults row) pop []
        (fun t ht => absurd ht (List.not_mem_nil t))
    have pass1_codes : ∀ t ∈ pass1 pop [], t.region_code ∈ rowCodes pop := by
      intro t ht
      have hcm : t.region_code ∈ codesOf (pass1 pop []) :=
        List.mem_map_of_mem SRow.region_code ht
      rcases (e1 t.region_code).mp hcm with h | h
      · exact absurd h (List.not_mem_nil _)
      · exact h
    have origin3 := @foldPass_origin EnvVals envVals envUpdate envFresh keepsPopInd
      (fun t => popDefaults t ∧ indDefaults t)
      (fun row s h => (envUpdate_code _ s).trans h) keepsPopInd_refl keepsPopInd_trans
      (fun row s => keepsPopInd_envUpdate _ s) (fun row => envFresh_defaults _ _)
      keepsPopInd_transfer env (pass2 ind (pass1 pop []))
    have origin2 := @foldPass_origin IndVals indVals indUpdate indFresh keepsPopEnv
      (fun t => popDefaults t ∧ envDefaults t)
      (fun row s h => (indUpdate_code _ s).trans h) keepsPopEnv_refl keepsPopEnv_trans
      (fun row s => keepsPopEnv_indUpdate _ s) (fun row => indFresh_defaults _ _)
      keepsPopEnv_transfer ind (pass1 pop [])
    refine ⟨?_, ?_, ?_⟩
    · intro hnp
      rcases origin3 r hmem with ⟨s, hs, hsc, hK⟩ | ⟨hD, _⟩
      · rcases origin2 s hs with ⟨t, ht, htc, hK2⟩ | ⟨hDp, _⟩
        · have : r.region_code ∈ rowCodes pop := by
            rw [← hsc, ← htc]
            exact pass1_codes t ht
          exact absurd this hnp
        · exact hK.1.symm.trans hDp
      · exact hD
    · intro hni
      rcases origin3 r hmem with ⟨s, hs, hsc, hK⟩ | ⟨_, hDi⟩
      · have hsnotin : s.region_code ∉ rowCodes ind := by
          rw [hsc]
          exact hni
        have hs1 : s ∈ pass1 pop [] :=
          @foldPass_untouched IndVals indVals indUpdate indFresh
            (fun row t h => (indUpdate_code _ t).trans h) (fun _ => rfl) ind
            (pass1 pop []) s hs hsnotin
        exact hK.2.symm.trans (pass1_def s hs1).1
      · exact hDi
    · intro hne
      have hr2 : r ∈ pass2 ind (pass1 pop []) :=
        @foldPass_untouched EnvVals envVals envUpdate envFresh
          (fun row t h => (envUpdate_code _ t).trans h) (fun _ => rfl) env
          (pass2 ind (pass1 pop [])) r hmem hne
      rcases origin2 r hr2 with ⟨t, ht, htc, hK2⟩ | ⟨_, hDe⟩
      · exact hK2.2.symm.trans (pass1_def t ht).2
      · exact hDe

/-- C8: the summary rows are sorted by total_categories_met descending; rows
with equal totals keep their relative insertion order (the filter to each
total value is unchanged by the sort, and the sorted rows are a permutation
of the merged rows); and the insertion order of the merged rows is all
demographic regions first, then economic regions not already present, then
physical-stock regions not already present. -/
theorem claim_C8_order (pop ind env : List Row)
    (hpop : (rowCodes pop).Nodup) (hind : (rowCodes ind).Nodup)
    (henv : (rowCodes env).Nodup) :
    sortedDesc (summaryRows pop ind env) ∧
    List.Perm (summaryRows pop ind env) (mergeRows pop ind env) ∧
    (∀ k, (summaryRows pop ind env).filter (fun r => decide (r.total_categories_met = k)) =
      (mergeRows pop ind env).filter (fun r => decide (r.total_categories_met = k))) ∧
    codesOf (mergeRows pop ind env) =
      rowCodes pop ++
        (rowCodes ind).filter (fun c => decide (c ∉ rowCodes pop)) ++
        (rowCodes env).filter
          (fun c => decide (c ∉ rowCodes pop ∧ c ∉ rowCodes ind)) := by
  refine ⟨sortSummary_sorted _, sortSummary_perm _, fun k => sortSummary_filter _ k, ?_⟩
  have c1 : codesOf (pass1 pop []) = rowCodes pop := by
    have h := @foldPass_codes Row id (fun row _ => popSRow row) (fun _ row => popSRow row)
      (fun _ _ _ => rfl) (fun _ => rfl) pop ([] : List SRow) hpop
    calc codesOf (pass1 pop [])
        = codesOf ([] : List SRow) ++
            (rowCodes pop).filter (fun c => decide (c ∉ codesOf ([] : List SRow))) := h
      _ = rowCodes pop := by
          rw [show codesOf ([] : List SRow) = [] from rfl, List.nil_append]
          refine List.filter_eq_self.mpr ?_
          intro a _
          simp
  have c2 : codesOf (pass2 ind (pass1 pop [])) =
      rowCodes pop ++ (rowCodes ind).filter (fun c => decide (c ∉ rowCodes pop)) := by
    have h := @foldPass_codes IndVals indVals indUpdate indFresh
      (fun row s hh => (indUpdate_code _ s).trans hh) (fun _ => rfl) ind (pass1 pop []) hind
    calc codesOf (pass2 ind (pass1 pop []))
        = codesOf (pass1 pop []) ++
            (rowCodes ind).filter (fun c => decide (c ∉ codesOf (pass1 pop []))) := h
      _ = _ := by simp only [c1]
  have c3 := @foldPass_codes EnvVals envVals envUpdate envFresh
    (fun row s hh => (envUpdate_code _ s).trans hh) (fun _ => rfl) env
    (pass2 ind (pass1 pop [])) henv
  calc codesOf (mergeRows pop ind env)
      = codesOf (pass2 ind (pass1 pop [])) ++
          (rowCodes env).filter
            (fun c => decide (c ∉ codesOf (pass2 ind (pass1 pop [])))) := c3
    _ = (rowCodes pop ++ (rowCodes ind).filter (fun c => decide (c ∉ rowCodes pop))) ++
          (rowCodes env).filter (fun c => decide (c ∉
            rowCodes pop ++ (rowCodes ind).filter (fun c => decide (c ∉ rowCodes pop)))) := by
        simp only [c2]
    _ = _ := by
        congr 1
        refine List.filter_congr ?_
        intro c _
        rw [decide_eq_decide]
        constructor
        · intro hn
          constructor
          · intro hp
            exact hn (List.mem_append.mpr (Or.inl hp))
          · intro hi
            by_cases hp : c ∈ rowCodes pop
            · exact hn (List.mem_append.mpr (Or.inl hp))
            · exact hn (List.mem_append.mpr (Or.inr (List.mem_filter.mpr ⟨hi, by
                simp only [decide_eq_true_eq]
                exact hp⟩)))
        · rintro ⟨hnp, hni⟩ hmem
          rcases List.mem_append.mp hmem with h | h
          · exact hnp h
          · exact hni (List.mem_filter.mp h).1

/-- Concrete cached rows used by the summary witnesses. -/
def wPop : List Row := [[("region_code", "A"), ("Decline_20pct", "O")]]

def wInd : List Row := [[("region_code", "B"), ("BusinessConsecDecline", "O")]]

def wEnv : List Row := [[("region_code", "A"), ("old_building_criterion", "O")]]

/-- The summary row of region A in the witness merge. -/
def wRowA : SRow :=
  ⟨"A", "0%", "O", "X", "O", "0%", "X", "X", "X", "0%", "O", "O", 2⟩

/-- Witness for C6 at a concrete merge. -/
theorem claim_C6_witness :
    wRowA.total_categories_met = wRowA.metCount ∧ wRowA.total_categories_met ≤ 3 :=
  claim_C6_total_categories wPop wInd wEnv (by decide) (by decide) wRowA (by decide)

/-- Witness for C7 at a concrete merge: region A appears (it is in the
demographic result) and keeps default industry fields (it is absent from the
economic result). -/
theorem claim_C7_witness :
    ("A" ∈ codesOf (summaryRows wPop wInd wEnv)) ∧ indDefaults wRowA :=
  ⟨((claim_C7_union_defaults wPop wInd wEnv).1 "A").mpr (Or.inl (by decide)),
    ((claim_C7_union_defaults wPop wInd wEnv).2 wRowA (by decide)).2.1 (by decide)⟩

/-- Witness for C8 at a concrete merge. -/
theorem claim_C8_witness : sortedDesc (summaryRows wPop wInd wEnv) :=
  (claim_C8_order wPop wInd wEnv (by decide) (by decide) (by decide)).1

/-- JS String.prototype.split with a one-character separator, on character
lists; the result is never empty and keeps empty fields. -/
def splitCh (sep : Char) : List Char → List (List Char)
  | [] => [[]]
  | c :: r =>
    if c = sep then [] :: splitCh sep r
    else
      match splitCh sep r with
      | g :: gs => (c :: g) :: gs
      | [] => [[c]]

/-- JS Array.prototype.join with a one-character separator. -/
def joinChars (sep : Char) : List (List Char) → List Char
  | [] => []
  | [x] => x
  | x :: y :: r => x ++ sep :: joinChars sep (y :: r)

/-- String-level split. -/
def jsSplit (sep : Char) (s : String) : List String :=
  (splitCh sep s.data).map (fun cs => (⟨cs⟩ : String))

/-- String-level join. -/
def joinSep (sep : Char) (cells : List String) : String :=
  ⟨joinChars sep (cells.map String.data)⟩

/-- List prefix test (models String.prototype.startsWith). -/
def listIsPre : List Char → List Char → Bool
  | [], _ => true
  | _ :: _, [] => false
  | p :: ps, c :: cs => if p = c then listIsPre ps cs else false

def strStarts (p s : String) : Bool := listIsPre p.data s.data

/-- Value of a run of decimal digits. -/
def digitsVal (ds : List Char) : Nat := ds.foldl (fun a c => a * 10 + (c.toNat - 48)) 0

/-- Model of JS parseFloat restricted to plain decimal numerals (optional
sign, digit run, optional fraction) — the format of the values of this data;
none stands for NaN (no leading numeral). -/
def parseQ (s : String) : Option ℚ :=
  let sr : Bool × List Char :=
    match s.data with
    | '-' :: r => (true, r)
    | '+' :: r => (false, r)
    | r => (false, r)
  let intPart := sr.2.takeWhile Char.isDigit
  let rest2 := sr.2.drop intPart.length
  let fracPart :=
    match rest2 with
    | '.' :: r2 => r2.takeWhile Char.isDigit
    | _ => []
  if intPart.isEmpty ∧ fracPart.isEmpty then none
  else
    let mag : ℚ := (digitsVal intPart : ℚ) + (digitsVal fracPart : ℚ) / ((10 : ℚ) ^ fracPart.length)
    some (if sr.1 then -mag else mag)

/-- Model of JS parseInt(s, 10): optional sign then a decimal digit run;
none stands for NaN. -/
def parseZ (s : String) : Option ℤ :=
  let sr : Bool × List Char :=
    match s.data with
    | '-' :: r => (true, r)
    | '+' :: r => (false, r)
    | r => (false, r)
  let digits := sr.2.takeWhile Char.isDigit
  if digits.isEmpty then none
  else some (if sr.1 then -(digitsVal digits : ℤ) else (digitsVal digits : ℤ))

/-- Model of JS Number.prototype.toFixed(2) on the exact rational value:
round to the nearest hundredth, half away from zero, two decimals. -/
def toFixed2 (q : ℚ) : String :=
  let scaled : ℤ := if q ≥ 0 then ⌊q * 100 + 1 / 2⌋ else -⌊-q * 100 + 1 / 2⌋
  let n := scaled.natAbs
  let sign := if scaled < 0 then "-" else ""
  sign ++ toString (n / 100) ++ "." ++ (if n % 100 < 10 then "0" else "") ++ toString (n % 100)

/-- One parsed observation (DataRecord of the source). -/
structure DataRecord where
  region_code : String
  year : String
  data_code : String
  value : String
deriving DecidableEq, Repr

/-- Record Parser (parseFileContent of the source): split on newline, drop
whitespace-only lines (trim().length > 0), split each line on the caret
into four positional fields defaulting to the empty string. -/
def parseFileContent (content : String) : List DataRecord :=
  let lines := (jsSplit '\n' content).filter (fun l => l.data.any (fun c => !c.isWhitespace))
  lines.map (fun line =>
    let parts := jsSplit '^' line
    { year := (parts[0]?).getD ""
      region_code := (parts[1]?).getD ""
      data_code := (parts[2]?).getD ""
      value := (parts[3]?).getD "" })

/-- The four pipeline modes of processFiles. -/
inductive IndicatorType where
  | population
  | industry
  | environment
  | summary
deriving DecidableEq, Repr

/-- Per-record filter applied inside the file loop of processFiles;
summary mode never reaches the loop. -/
def recordFilter (ind : IndicatorType) (r : DataRecord) : Bool :=
  match ind with
  | .environment => decide (r.year = "2023") && strStarts "ho_yr_" r.data_code
  | .population => decide (r.data_code = "to_in_001")
  | .industry => decide (r.data_code = "to_fa_010")
  | .summary => false

/-- One step of the Pivot Aggregator: record the year, create the region row
if new, then write values[year_Y] = value (last write wins). -/
def pivotStep (acc : List Row × List String) (r : DataRecord) : List Row × List String :=
  let years := if acc.2.contains r.year then acc.2 else acc.2 ++ [r.year]
  let rows0 :=
    if acc.1.any (fun row => decide (rowGet row "region_code" = some r.region_code)) then
      acc.1
    else acc.1 ++ [[("region_code", r.region_code)]]
  let rows := rows0.map (fun row =>
    if rowGet row "region_code" = some r.region_code then
      rowSet row ("year_" ++ r.year) r.value
    else row)
  (rows, years)

/-- Pivot Aggregator of the source: region rows in first-observed order and
the distinct years in insertion order. -/
def pivot (records : List DataRecord) : List Row × List String :=
  records.foldl pivotStep ([], [])

/-- Ascending insertion sort of the year labels (JS default sort). -/
def insertStr (x : String) : List String → List String
  | [] => [x]
  | y :: ys => if x < y then x :: y :: ys else y :: insertStr x ys

def sortStrings (l : List String) : List String := l.foldr insertStr []

def yearKey (y : String) : String := "year_" ++ y

/-- The cell the analyzers see for one year of a pivoted row: missing or
empty is falsy, a non-numeric string parses to NaN, else its value. -/
def cellOf (v : Option String) : Cell :=
  match v with
  | none => .absent
  | some s =>
    if s = "" then .absent
    else
      match parseQ s with
      | some q => .num q
      | none => .junk

def rowCells (sortedYears : List String) (row : Row) : List Cell :=
  sortedYears.map (fun y => cellOf (rowGet row (yearKey y)))

/-- Write-back of analyzePopulationDecline into a pivoted row's fields. -/
def applyPopAnalysis (sortedYears : List String) (row : Row) : Row :=
  let a := analyzePopulationDecline (rowCells sortedYears row)
  let row1 :=
    match a.isMax with
    | some i =>
      match sortedYears[i]? with
      | some y => rowSet row (yearKey y ++ "_isMax") "true"
      | none => row
    | none => row
  let row2 := rowSet row1 "DeclineRate" (toFixed2 a.declineRate ++ "%")
  let row3 := rowSet row2 "Decline_20pct" a.decline20
  let row4 := a.decliningIdx.foldl (fun r i =>
    match sortedYears[i]? with
    | some y => rowSet r (yearKey y ++ "_declining") "true"
    | none => r) row3
  rowSet row4 "ConsecutiveDecline" a.consecutive

/-- Write-back of analyzeBusinessDecline into a pivoted row's fields. -/
def applyBizAnalysis (sortedYears : List String) (row : Row) : Row :=
  let a := analyzeBusinessDecline (rowCells sortedYears row)
  let row1 :=
    match a.isMax with
    | some i =>
      match sortedYears[i]? with
      | some y => rowSet row (yearKey y ++ "_isMax") "true"
      | none => row
    | none => row
  let row2 := rowSet row1 "BusinessDeclineRate" (toFixed2 a.declineRate ++ "%")
  let row3 := rowSet row2 "BusinessDeclineOver5%" a.decline5
  let row4 := a.decliningIdx.foldl (fun r i =>
    match sortedYears[i]? with
    | some y => rowSet r (yearKey y ++ "_declining") "true"
    | none => r) row3
  rowSet row4 "BusinessConsecDecline" a.consecutive

/-- The four "old" building-age bucket codes. -/
def oldCodes : List String := ["ho_yr_001", "ho_yr_002", "ho_yr_003", "ho_yr_004"]

/-- Group records by region code (JS Map of arrays, insertion-ordered). -/
def groupStep (acc : List (String × List DataRecord)) (r : DataRecord) :
    List (String × List DataRecord) :=
  if acc.any (fun g => decide (g.1 = r.region_code)) then
    acc.map (fun g => if g.1 = r.region_code then (g.1, g.2 ++ [r]) else g)
  else acc ++ [(r.region_code, [r])]

def groupRegions (records : List DataRecord) : List (String × List DataRecord) :=
  records.foldl groupStep []

/-- Building-age statistics row of processEnvironmentData for one region. -/
def envRow (regionCode : String) (recs : List DataRecord) : Row :=
  let totals := recs.foldl (fun (t : ℤ × ℤ) rec =>
    match parseZ rec.value with
    | some v => (t.1 + v, if oldCodes.contains rec.data_code then t.2 + v else t.2)
    | none => t) ((0 : ℤ), (0 : ℤ))
  let pct : ℚ := if totals.1 > 0 then (totals.2 : ℚ) / (totals.1 : ℚ) * 100 else 0
  [("region_code", regionCode),
    ("total_buildings", toString totals.1),
    ("old_buildings", toString totals.2),
    ("old_building_percentage", toFixed2 pct ++ "%"),
    ("old_building_criterion", if pct ≥ 50 then "O" else "X")]

/-- CSV cell of the export serializer: row[header] || ''. -/
def csvCell (row : Row) (h : String) : String := jsOr (rowGet row h) ""

/-- Delimited-text artifact of the export serializer: a header line then one
comma-joined line per row, lines joined by newline (the UTF-8 BOM prefix of
the byte encoding is not modelled). -/
def csvContent (headers : List String) (rows : List Row) : String :=
  joinSep '\n'
    (joinSep ',' headers :: rows.map (fun row => joinSep ',' (headers.map (csvCell row))))

/-- The process-wide ProcessedDataCache. -/
structure Cache where
  population : Option (List Row)
  industry : Option (List Row)
  environment : Option (List Row)
deriving DecidableEq, Repr

/-- Outcome record of one pipeline invocation (ProcessingResult): preview
and artifacts are populated only on success. -/
structure ProcResult where
  success : Bool
  message : String
  csvText : Option String
  previewHeaders : Option (List String)
  previewRows : Option (List Row)
  excelMade : Bool
deriving DecidableEq, Repr

def failResult (msg : String) : ProcResult :=
  { success := false, message := msg, csvText := none, previewHeaders := none,
    previewRows := none, excelMade := false }

/-- Preview cell for one year column, with the display-only markers appended
to the raw stored value. -/
def previewYearCell (row : Row) (y : String) : String :=
  let value := jsOr (rowGet row (yearKey y)) ""
  if rowGet row (yearKey y ++ "_isMax") = some "true" then value ++ " ★"
  else if rowGet row (yearKey y ++ "_declining") = some "true" then value ++ " ▼"
  else value

def popPreviewHeaders (sortedYears : List String) : List String :=
  "region_code" :: sortedYears ++ ["Decline Rate", "Decline ≥20%", "Consecutive Decline"]

def popPreviewRow (sortedYears : List String) (row : Row) : Row :=
  ("region_code", (rowGet row "region_code").getD "") ::
    sortedYears.map (fun y => (y, previewYearCell row y)) ++
    [("Decline Rate", jsOr (rowGet row "DeclineRate") ""),
      ("Decline ≥20%", jsOr (rowGet row "Decline_20pct") ""),
      ("Consecutive Decline", jsOr (rowGet row "ConsecutiveDecline") "")]

def bizPreviewHeaders (sortedYears : List String) : List String :=
  "region_code" :: sortedYears ++ ["Decline Rate", "Decline ≥5%", "Consec. Decline"]

def bizPreviewRow (sortedYears : List String) (row : Row) : Row :=
  ("region_code", (rowGet row "region_code").getD "") ::
    sortedYears.map (fun y => (y, previewYearCell row y)) ++
    [("Decline Rate", jsOr (rowGet row "BusinessDeclineRate") ""),
      ("Decline ≥5%", jsOr (rowGet row "BusinessDeclineOver5%") ""),
      ("Consec. Decline", jsOr (rowGet row "BusinessConsecDecline") "")]

def envPreviewHeaders : List String :=
  ["Region Code", "Total Buildings", "Old Buildings (20+ years)", "Old Building %",
    "Old Buildings ≥50%"]

def envPreviewRow (row : Row) : Row :=
  [("Region Code", (rowGet row "region_code").getD ""),
    ("Total Buildings", (rowGet row "total_buildings").getD ""),
    ("Old Buildings (20+ years)", (rowGet row "old_buildings").getD ""),
    ("Old Building %", (rowGet row "old_building_percentage").getD ""),
    ("Old Buildings ≥50%", (rowGet row "old_building_criterion").getD "")]

def summaryHeaders : List String :=
  ["region_code", "population_decline_rate_pct", "population_decline_rate",
    "population_consecutive_decline", "population_category_met",
    "industry_decline_rate_pct", "industry_decline_rate",
    "industry_consecutive_decline", "industry_category_met",
    "environment_old_building_pct", "environment_old_building",
    "environment_category_met", "total_categories_met"]

/-- CSV cell values of a summary row in header order (row[header].toString()). -/
def summaryCsvLine (r : SRow) : List String :=
  [r.region_code, r.population_decline_rate_pct, r.population_decline_rate,
    r.population_consecutive_decline, r.population_category_met,
    r.industry_decline_rate_pct, r.industry_decline_rate,
    r.industry_consecutive_decline, r.industry_category_met,
    r.environment_old_building_pct, r.environment_old_building,
    r.environment_category_met, toString r.total_categories_met]

def summaryCsv (rows : List SRow) : String :=
  joinSep '\n' (joinSep ',' summaryHeaders :: rows.map (fun r => joinSep ',' (summaryCsvLine r)))

def summaryPreviewHeaders : List String :=
  ["Region Code", "Pop. Decline Rate", "Pop. Decline ≥20%", "Pop. Consec. Decline",
    "Pop. Category Met", "Ind. Decline Rate", "Ind. Decline ≥5%", "Ind. Consec. Decline",
    "Ind. Category Met", "Env. Old Building %", "Env. Old Building ≥50%",
    "Env. Category Met", "Total Categories"]

def summaryPreviewRow (r : SRow) : Row :=
  [("Region Code", r.region_code),
    ("Pop. Decline Rate", r.population_decline_rate_pct),
    ("Pop. Decline ≥20%", r.population_decline_rate),
    ("Pop. Consec. Decline", r.population_consecutive_decline),
    ("Pop. Category Met", r.population_category_met),
    ("Ind. Decline Rate", r.industry_decline_rate_pct),
    ("Ind. Decline ≥5%", r.industry_decline_rate),
    ("Ind. Consec. Decline", r.industry_consecutive_decline),
    ("Ind. Category Met", r.industry_category_met),
    ("Env. Old Building %", r.environment_old_building_pct),
    ("Env. Old Building ≥50%", r.environment_old_building),
    ("Env. Category Met", r.environment_category_met),
    ("Total Categories", toString r.total_categories_met)]

/-- Summary merger invocation (processAllIndicators).  The workbook is
produced by the external XLSX library inside the try block; `serializeOk`
models whether these external artifact-serialization calls succeed — a
throw there is converted by the catch into a failure result.  On the
success path the source returns blobUrl set to the empty string, so no
text artifact is handed back. -/
def processAllIndicators (serializeOk : Bool) (cache : Cache) : ProcResult :=
  match cache.population, cache.industry, cache.environment with
  | some pop, some ind, some env =>
    let rows := summaryRows pop ind env
    if serializeOk then
      { success := true
        message := "Summary analysis completed"
        csvText := none
        previewHeaders := some summaryPreviewHeaders
        previewRows := some (rows.map summaryPreviewRow)
        excelMade := true }
    else failResult "Excel serialization failed"
  | _, _, _ => failResult "Please process all three indicators before generating a summary"

/-- Physical-stock run (processEnvironmentData): the cache slot is written
before the artifacts are serialized; a serialization fault still leaves the
new rows in the slot. -/
def processEnvironmentData (records : List DataRecord) (serializeOk : Bool) (cache : Cache) :
    ProcResult × Cache :=
  let outputRows := (groupRegions records).map (fun g => envRow g.1 g.2)
  let cache2 : Cache := { cache with environment := some outputRows }
  let headers := ["region_code", "total_buildings", "old_buildings",
    "old_building_percentage", "old_building_criterion"]
  let csv := csvContent headers outputRows
  if serializeOk then
    ({ success := true, message := "Physical environment analysis completed",
        csvText := some csv, previewHeaders := some envPreviewHeaders,
        previewRows := some (outputRows.map envPreviewRow), excelMade := true }, cache2)
  else (failResult "Excel serialization failed", cache2)

/-- Sequential boundary file reads (file.text()); the first rejected read
aborts the run with its message. -/
def readAll : List (Except String String) → Except String (List String)
  | [] => .ok []
  | f :: r =>
    match f with
    | .ok s => (readAll r).map (fun l => s :: l)
    | .error e => .error e

/-- The pipeline entry point (processFiles).  `files` carries the outcomes
of the boundary file reads; `serializeOk` models the external artifact
serialization (see processAllIndicators); the ProcessedDataCache is threaded
explicitly.  Success messages stand in for getSuccessMessageByIndicator,
whose body lies outside the provided sources. -/
def processFiles (files : List (Except String String)) (ind : IndicatorType)
    (serializeOk : Bool) (cache : Cache) : ProcResult × Cache :=
  if ind = .summary then (processAllIndicators serializeOk cache, cache)
  else if files.isEmpty then (failResult "No files provided", cache)
  else
    match readAll files with
    | .error e => (failResult e, cache)
    | .ok contents =>
      let allRecords := contents.flatMap (fun c => (parseFileContent c).filter (recordFilter ind))
      if ind = .environment then processEnvironmentData allRecords serializeOk cache
      else
        let pr := pivot allRecords
        let sortedYears := sortStrings pr.2
        match ind with
        | .population =>
          let outputRows := pr.1.map (applyPopAnalysis sortedYears)
          let cache2 : Cache := { cache with population := some outputRows }
          let headers := ("region_code" :: sortedYears.map yearKey) ++
            ["DeclineRate", "Decline_20pct", "ConsecutiveDecline"]
          let csv := csvContent headers outputRows
          if serializeOk then
            ({ success := true, message := "Population decline analysis completed",
                csvText := some csv, previewHeaders := some (popPreviewHeaders sortedYears),
                previewRows := some (outputRows.map (popPreviewRow sortedYears)),
                excelMade := true }, cache2)
          else (failResult "Excel serialization failed", cache2)
        | .industry =>
          let outputRows := pr.1.map (applyBizAnalysis sortedYears)
          let cache2 : Cache := { cache with industry := some outputRows }
          let headers := ("region_code" :: sortedYears.map yearKey) ++
            ["BusinessDeclineRate", "BusinessDeclineOver5%", "BusinessConsecDecline"]
          let csv := csvContent headers outputRows
          if serializeOk then
            ({ success := true, message := "Business decline analysis completed",
                csvText := some csv, previewHeaders := some (bizPreviewHeaders sortedYears),
                previewRows := some (outputRows.map (bizPreviewRow sortedYears)),
                excelMade := true }, cache2)
          else (failResult "Excel serialization failed", cache2)
        | .environment => (failResult "", cache)
        | .summary => (failResult "", cache)

/-- The three cache slots. -/
inductive SlotId where
  | population
  | industry
  | environment
deriving DecidableEq, Repr

def Cache.slot (c : Cache) : SlotId → Option (List Row)
  | .population => c.population
  | .industry => c.industry
  | .environment => c.environment

/-- Which cache slot a pipeline mode writes (none for summary). -/
def activeSlot : IndicatorType → Option SlotId
  | .population => some .population
  | .industry => some .industry
  | .environment => some .environment
  | .summary => none

/-- The categories missing from the cache, in the order the precondition
tests them. -/
def missingSlots (c : Cache) : List SlotId :=
  (if c.population.isNone then [SlotId.population] else []) ++
    (if c.industry.isNone then [SlotId.industry] else []) ++
    (if c.environment.isNone then [SlotId.environment] else [])

/-- Cache slots other than the active one are never modified. -/
theorem processFiles_frame (files : List (Except String String)) (ind : IndicatorType)
    (serializeOk : Bool) (cache : Cache) (s : SlotId) (hs : activeSlot ind ≠ some s) :
    ((processFiles files ind serializeOk cache).2).slot s = cache.slot s := by
  cases ind with
  | summary => rfl
  | population =>
    have hsne : s ≠ SlotId.population := by
      intro h
      exact hs (by rw [h]; rfl)
    unfold processFiles
    rw [if_neg (by decide)]
    by_cases hempty : files.isEmpty
    · rw [if_pos hempty]
    · rw [if_neg hempty]
      cases hread : readAll files with
      | error e => rfl
      | ok contents =>
        cases serializeOk with
        | true =>
          cases s with
          | population => exact absurd rfl hsne
          | industry => rfl
          | environment => rfl
        | false =>
          cases s with
          | population => exact absurd rfl hsne
          | industry => rfl
          | environment => rfl
  | industry =>
    have hsne : s ≠ SlotId.industry := by
      intro h
      exact hs (by rw [h]; rfl)
    unfold processFiles
    rw [if_neg (by decide)]
    by_cases hempty : files.isEmpty
    · rw [if_pos hempty]
    · rw [if_neg hempty]
      cases hread : readAll files with
      | error e => rfl
      | ok contents =>
        cases serializeOk with
        | true =>
          cases s with
          | population => rfl
          | industry => exact absurd rfl hsne
          | environment => rfl
        | false =>
          cases s with
          | population => rfl
          | industry => exact absurd rfl hsne
          | environment => rfl
  | environment =>
    have hsne : s ≠ SlotId.environment := by
      intro h
      exact hs (by rw [h]; rfl)
    unfold processFiles
    rw [if_neg (by decide)]
    by_cases hempty : files.isEmpty
    · rw [if_pos hempty]
    · rw [if_neg hempty]
      cases hread : readAll files with
      | error e => rfl
      | ok contents =>
        cases serializeOk with
        | true =>
          cases s with
          | population => rfl
          | industry => rfl
          | environment => exact absurd rfl hsne
        | false =>
          cases s with
          | population => rfl
          | industry => rfl
          | environment => exact absurd rfl hsne

/-- With the artifact serialization succeeding, every failure happens before
any cache write, so a failed run leaves the cache unchanged. -/
theorem processFiles_fail_noWrite (files : List (Except String String))
    (ind : IndicatorType) (cache : Cache)
    (h : (processFiles files ind true cache).1.success = false) :
    (processFiles files ind true cache).2 = cache := by
  cases ind with
  | summary => rfl
  | population =>
    unfold processFiles at h ⊢
    rw [if_neg (by decide)] at h ⊢
    by_cases hempty : files.isEmpty
    · rw [if_pos hempty]
    · rw [if_neg hempty] at h ⊢
      cases hread : readAll files with
      | error e => rfl
      | ok contents =>
        rw [hread] at h
        have h2 : true = false := h
        exact Bool.noConfusion h2
  | industry =>
    unfold processFiles at h ⊢
    rw [if_neg (by decide)] at h ⊢
    by_cases hempty : files.isEmpty
    · rw [if_pos hempty]
    · rw [if_neg hempty] at h ⊢
      cases hread : readAll files with
      | error e => rfl
      | ok contents =>
        rw [hread] at h
        have h2 : true = false := h
        exact Bool.noConfusion h2
  | environment =>
    unfold processFiles at h ⊢
    rw [if_neg (by decide)] at h ⊢
    by_cases hempty : files.isEmpty
    · rw [if_pos hempty]
    · rw [if_neg hempty] at h ⊢
      cases hread : readAll files with
      | error e => rfl
      | ok contents =>
        rw [hread] at h
        have h2 : true = false := h
        exact Bool.noConfusion h2

/-- Cache states missing different categories, for the C4 counterexample. -/
def cacheMissingEnv : Cache := ⟨some [], some [], none⟩

def cacheMissingPop : Cache := ⟨none, some [], some []⟩

/-- C4 counterexample: two cache states missing different categories receive
the identical failure message, so the message cannot name which categories
are missing. -/
theorem claim_C4_counterexample :
    (processAllIndicators true cacheMissingEnv).message =
      (processAllIndicators true cacheMissingPop).message ∧
    missingSlots cacheMissingEnv ≠ missingSlots cacheMissingPop := by
  decide

/-- C4 amended: invoking the pipeline in summary mode with any category
cache missing fails immediately with the fixed message asking to process
all three indicators first (the message does not name which categories are
missing), and produces no summary rows, no preview and no artifacts. -/
theorem claim_C4_amended (cache : Cache) (serializeOk : Bool)
    (h : missingSlots cache ≠ []) :
    processAllIndicators serializeOk cache =
      failResult "Please process all three indicators before generating a summary" := by
  unfold processAllIndicators
  cases hp : cache.population with
  | none => rfl
  | some pop =>
    cases hi : cache.industry with
    | none => rfl
    | some ind =>
      cases he : cache.environment with
      | none => rfl
      | some env =>
        exfalso
        apply h
        unfold missingSlots
        rw [hp, hi, he]
        rfl

/-- Witness for C4 at a concrete deficient cache. -/
theorem claim_C4_witness :
    processAllIndicators true cacheMissingEnv =
      failResult "Please process all three indicators before generating a summary" :=
  claim_C4_amended cacheMissingEnv true (by decide)

/-- Concrete inputs for the C5 counterexample: a valid physical-stock upload
run against a cache holding an older environment result, failing at the
artifact-serialization step. -/
def c5Cache : Cache := ⟨none, none, some [[("region_code", "OLD")]]⟩

def c5Files : List (Except String String) := [Except.ok "2023^R1^ho_yr_001^10"]

/-- C5 counterexample: this environment run fails (success = false) yet its
own cache slot no longer holds the value from before the run. -/
theorem claim_C5_counterexample :
    (processFiles c5Files .environment false c5Cache).1.success = false ∧
    (processFiles c5Files .environment false c5Cache).2.environment ≠ c5Cache.environment := by
  decide

/-- C5 amended: a failing category run leaves the slots of the other two
categories unchanged; and unless the failure is an artifact-serialization
fault (which strikes only after the analysis has been stored), the whole
cache — the active slot included — is unchanged. -/
theorem claim_C5_amended (files : List (Except String String)) (ind : IndicatorType)
    (serializeOk : Bool) (cache : Cache)
    (hfail : (processFiles files ind serializeOk cache).1.success = false) :
    (∀ s : SlotId, activeSlot ind ≠ some s →
      ((processFiles files ind serializeOk cache).2).slot s = cache.slot s) ∧
    (serializeOk = true → (processFiles files ind serializeOk cache).2 = cache) := by
  refine ⟨fun s hs => processFiles_frame files ind serializeOk cache s hs, ?_⟩
  intro hso
  subst hso
  exact processFiles_fail_noWrite files ind cache hfail

/-- Witness for C5 at a concrete failing run (no files supplied). -/
theorem claim_C5_witness :
    (processFiles [] IndicatorType.population true ⟨none, none, none⟩).2 =
      (⟨none, none, none⟩ : Cache) :=
  (claim_C5_amended [] IndicatorType.population true ⟨none, none, none⟩ (by decide)).2 rfl

/-- C10: invoking the pipeline for one category never modifies the cache
slots of the other two categories, and invoking it in summary mode modifies
none of the three slots. -/
theorem claim_C10_frame (files : List (Except String String)) (ind : IndicatorType)
    (serializeOk : Bool) (cache : Cache) :
    (ind = .summary → (processFiles files ind serializeOk cache).2 = cache) ∧
    (∀ s : SlotId, activeSlot ind ≠ some s →
      ((processFiles files ind serializeOk cache).2).slot s = cache.slot s) := by
  refine ⟨?_, fun s hs => processFiles_frame files ind serializeOk cache s hs⟩
  intro hsum
  subst hsum
  rfl

/-- Witness for C10: a summary run leaves the cache untouched, and a
category run leaves a foreign slot untouched. -/
theorem claim_C10_witness :
    (processFiles [] IndicatorType.summary true cacheMissingEnv).2 = cacheMissingEnv ∧
    (processFiles c5Files IndicatorType.environment false c5Cache).2.slot SlotId.population =
      c5Cache.slot SlotId.population :=
  ⟨(claim_C10_frame [] IndicatorType.summary true cacheMissingEnv).1 rfl,
    (claim_C10_frame c5Files IndicatorType.environment false c5Cache).2 SlotId.population
      (by decide)⟩

/-- Re-parse of the delimited-text artifact: split into lines on the newline
under the header row, then split each line into cells on commas. -/
def reparseCsv (s : String) : List (List String) :=
  (splitCh '\n' s.data).map (fun line => (splitCh ',' line).map (fun cs => (⟨cs⟩ : String)))

theorem splitCh_no_sep {sep : Char} : ∀ x : List Char, sep ∉ x → splitCh sep x = [x] := by
  intro x
  induction x with
  | nil => intro _; rfl
  | cons c r ih =>
    intro h
    have hc : ¬(c = sep) := by
      intro hcc
      exact h (by rw [hcc]; exact List.mem_cons_self sep r)
    simp only [splitCh, if_neg hc]
    rw [ih (fun hm => h (List.mem_cons_of_mem c hm))]

theorem splitCh_append {sep : Char} : ∀ (x t : List Char), sep ∉ x →
    splitCh sep (x ++ sep :: t) = x :: splitCh sep t := by
  intro x
  induction x with
  | nil =>
    intro t _
    show splitCh sep (sep :: t) = [] :: splitCh sep t
    simp [splitCh]
  | cons c r ih =>
    intro t h
    have hc : ¬(c = sep) := by
      intro hcc
      exact h (by rw [hcc]; exact List.mem_cons_self sep r)
    show splitCh sep (c :: (r ++ sep :: t)) = (c :: r) :: splitCh sep t
    simp only [splitCh, if_neg hc]
    rw [ih t (fun hm => h (List.mem_cons_of_mem c hm))]

theorem not_mem_joinChars {sep c : Char} (hne : c ≠ sep) :
    ∀ xs : List (List Char), (∀ x ∈ xs, c ∉ x) → c ∉ joinChars sep xs := by
  intro xs
  induction xs with
  | nil => intro _; exact List.not_mem_nil c
  | cons x rest ih =>
    intro hall
    cases rest with
    | nil => exact hall x (List.mem_cons_self x [])
    | cons y rest2 =>
      show c ∉ x ++ sep :: joinChars sep (y :: rest2)
      intro hmem
      rcases List.mem_append.mp hmem with hm | hm
      · exact hall x (List.mem_cons_self _ _) hm
      · rcases List.mem_cons.mp hm with hm2 | hm2
        · exact hne hm2
        · exact ih (fun z hz => hall z (List.mem_cons_of_mem x hz)) hm2

theorem splitCh_joinChars {sep : Char} : ∀ xs : List (List Char), xs ≠ [] →
    (∀ x ∈ xs, sep ∉ x) → splitCh sep (joinChars sep xs) = xs := by
  intro xs
  induction xs with
  | nil => intro h _; exact absurd rfl h
  | cons x rest ih =>
    intro _ hall
    cases rest with
    | nil =>
      show splitCh sep x = [x]
      exact splitCh_no_sep x (hall x (List.mem_cons_self x []))
    | cons y rest2 =>
      show splitCh sep (x ++ sep :: joinChars sep (y :: rest2)) = x :: y :: rest2
      rw [splitCh_append x _ (hall x (List.mem_cons_self _ _)),
        ih (by simp) (fun z hz => hall z (List.mem_cons_of_mem x hz))]

theorem map_mk_data (cells : List String) :
    (cells.map String.data).map (fun cs => (⟨cs⟩ : String)) = cells := by
  induction cells with
  | nil => rfl
  | cons s rest ih =>
    simp only [List.map_cons]
    rw [ih]

/-- Round trip of the delimited-text serializer on any table of non-empty
cell lines whose cells contain no separator. -/
theorem reparseCsv_joinSep (cellLines : List (List String)) (hne : cellLines ≠ [])
    (hcells : ∀ l ∈ cellLines, l ≠ [])
    (hclean : ∀ l ∈ cellLines, ∀ c ∈ l, ',' ∉ c.data ∧ '\n' ∉ c.data) :
    reparseCsv (joinSep '\n' (cellLines.map (joinSep ','))) = cellLines := by
  show ((splitCh '\n'
      (joinChars '\n' ((cellLines.map (joinSep ',')).map String.data))).map
      (fun line => (splitCh ',' line).map (fun cs => (⟨cs⟩ : String)))) = cellLines
  have hmap : (cellLines.map (joinSep ',')).map String.data =
      cellLines.map (fun cells => joinChars ',' (cells.map String.data)) := by
    rw [List.map_map]
    exact rfl
  rw [hmap]
  have hne2 : cellLines.map (fun cells => joinChars ',' (cells.map String.data)) ≠ [] := by
    intro hx
    exact hne (List.map_eq_nil_iff.mp hx)
  have hclean2 : ∀ x ∈ cellLines.map (fun cells => joinChars ',' (cells.map String.data)),
      '\n' ∉ x := by
    intro x hx
    obtain ⟨cells, hcm, hxe⟩ := List.mem_map.mp hx
    rw [← hxe]
    refine not_mem_joinChars (by decide) _ ?_
    intro cs hcs
    obtain ⟨c0, hc0, hce⟩ := List.mem_map.mp hcs
    rw [← hce]
    exact (hclean cells hcm c0 hc0).2
  rw [splitCh_joinChars _ hne2 hclean2, List.map_map]
  have heach : ∀ cells ∈ cellLines,
      ((fun line => (splitCh ',' line).map (fun cs => (⟨cs⟩ : String))) ∘
        (fun cells => joinChars ',' (cells.map String.data))) cells = cells := by
    intro cells hmem
    show ((splitCh ',' (joinChars ',' (cells.map String.data))).map
      (fun cs => (⟨cs⟩ : String))) = cells
    have hne3 : cells.map String.data ≠ [] := by
      intro hx
      exact hcells cells hmem (List.map_eq_nil_iff.mp hx)
    have hclean3 : ∀ cs ∈ cells.map String.data, ',' ∉ cs := by
      intro cs hcs
      obtain ⟨c0, hc0, hce⟩ := List.mem_map.mp hcs
      rw [← hce]
      exact (hclean cells hmem c0 hc0).1
    rw [splitCh_joinChars _ hne3 hclean3, map_mk_data]
  exact (List.map_congr_left heach).trans (List.map_id cellLines)

/-- C9: serializing a result table whose header labels and stored cell
values contain no comma or newline, then re-parsing the artifact (splitting
lines on commas under the header row), reconstructs exactly the original
header labels and per-cell stored values; with the stored values free of
the ★/▼ markers, no artifact cell contains a marker, while the preview
appends " ★" to the peak year's cell and " ▼" to each flagged declining
year's cell. -/
theorem claim_C9_round_trip (headers : List String) (rows : List Row)
    (hne : headers ≠ [])
    (hh : ∀ h ∈ headers, ',' ∉ h.data ∧ '\n' ∉ h.data)
    (hc : ∀ row ∈ rows, ∀ h ∈ headers,
      ',' ∉ (csvCell row h).data ∧ '\n' ∉ (csvCell row h).data) :
    reparseCsv (csvContent headers rows) =
      headers :: rows.map (fun row => headers.map (csvCell row)) ∧
    ((∀ h ∈ headers, '★' ∉ h.data ∧ '▼' ∉ h.data) →
      (∀ row ∈ rows, ∀ h ∈ headers,
        '★' ∉ (csvCell row h).data ∧ '▼' ∉ (csvCell row h).data) →
      ∀ line ∈ reparseCsv (csvContent headers rows), ∀ cell ∈ line,
        '★' ∉ cell.data ∧ '▼' ∉ cell.data) ∧
    (∀ (row : Row) (y : String), rowGet row (yearKey y ++ "_isMax") = some "true" →
      previewYearCell row y = csvCell row (yearKey y) ++ " ★") ∧
    (∀ (row : Row) (y : String), rowGet row (yearKey y ++ "_isMax") ≠ some "true" →
      rowGet row (yearKey y ++ "_declining") = some "true" →
      previewYearCell row y = csvCell row (yearKey y) ++ " ▼") := by
  have hcsv : csvContent headers rows =
      joinSep '\n'
        ((headers :: rows.map (fun row => headers.map (csvCell row))).map (joinSep ',')) := by
    rw [List.map_cons, List.map_map]
    rfl
  have hmain : reparseCsv (csvContent headers rows) =
      headers :: rows.map (fun row => headers.map (csvCell row)) := by
    rw [hcsv]
    refine reparseCsv_joinSep _ (by simp) ?_ ?_
    · intro l hl
      rcases List.mem_cons.mp hl with hle | hlm
      · rw [hle]
        exact hne
      · obtain ⟨row, _, hre⟩ := List.mem_map.mp hlm
        rw [← hre]
        intro hx
        exact hne (List.map_eq_nil_iff.mp hx)
    · intro l hl c hcl
      rcases List.mem_cons.mp hl with hle | hlm
      · rw [hle] at hcl
        exact hh c hcl
      · obtain ⟨row, hrm, hre⟩ := List.mem_map.mp hlm
        rw [← hre] at hcl
        obtain ⟨h0, hh0, hce⟩ := List.mem_map.mp hcl
        rw [← hce]
        exact hc row hrm h0 hh0
  refine ⟨hmain, ?_, ?_, ?_⟩
  · intro hm1 hm2 line hline cell hcell
    rw [hmain] at hline
    rcases List.mem_cons.mp hline with hle | hlm
    · rw [hle] at hcell
      exact hm1 cell hcell
    · obtain ⟨row, hrm, hre⟩ := List.mem_map.mp hlm
      rw [← hre] at hcell
      obtain ⟨h0, hh0, hce⟩ := List.mem_map.mp hcell
      rw [← hce]
      exact hm2 row hrm h0 hh0
  · intro row y hflag
    unfold previewYearCell csvCell
    rw [if_pos hflag]
  · intro row y hnflag hflag
    unfold previewYearCell csvCell
    rw [if_neg hnflag, if_pos hflag]

/-- Concrete table for the C9 witness. -/
def wHeaders : List String := ["region_code", "year_2020", "DeclineRate"]

def wRows : List Row :=
  [[("region_code", "A"), ("year_2020", "5"), ("year_2020_isMax", "true"),
    ("DeclineRate", "0.00%")]]

/-- Witness for C9 at a concrete table. -/
theorem claim_C9_witness :
    reparseCsv (csvContent wHeaders wRows) =
      wHeaders :: wRows.map (fun row => wHeaders.map (csvCell row)) :=
  (claim_C9_round_trip wHeaders wRows (by decide) (by decide) (by decide)).1

end PPM
